import Mathlib

/-!
# Physics equations: sentinel-dispatched formula evaluators

A shallow embedding of `src/lib/physics_equations.hpp`, whose eight
evaluators take and return `double`.  Each evaluator is embedded twice, both
times as the source's `if / else if` chain, branch for branch.

* Over a linearly ordered field `α` with exact arithmetic (the rationals and
  the reals are instances).  Here `==`, `*`, `/`, `+`, `-` are the field's own
  operations, `pow(x, 2)` is `x ^ 2`, and `sqrt` and `sin` are parameters of
  the evaluators that call them.  This embedding carries the statements about
  which branch is taken and what expression it returns, and the statements
  that are themselves about exact arithmetic.

* Over `Double`, a model of IEEE-754 binary64 (names ending in `_double`).
  A value is a finite sign-and-magnitude number, an infinity or NaN; every
  operation computes the exact rational result and rounds it to the nearest
  binary64 value, ties to even, overflowing to an infinity.  `pow(x, 2)` is
  taken to return the correctly rounded square (what `x * x` computes),
  `sqrt` is correctly rounded, and `sin` is a parameter.  Every operation
  also reports, in `Flags`, whether a division had a zero divisor, a square
  root had a negative argument, or a result overflowed.  This embedding
  carries the statements whose truth depends on rounding, underflow,
  overflow, infinities or NaN.
-/

namespace PhysicsEquations

variable {α : Type} [LinearOrderedField α]

/-- The call `pow(x, n)` of `<cmath>` at a natural exponent. -/
def pow (x : α) (n : ℕ) : α := x ^ n

/-- Newton's second law, `newton_second_law(force, mass, acceleration)`. -/
def newton_second_law (force mass acceleration : α) : α :=
  if force = 0 then
    mass * acceleration
  else if mass = 0 then
    force / acceleration
  else if acceleration = 0 then
    force / mass
  else
    0

/-- Projectile motion, `projectile_motion(initial_velocity, time, acceleration)`. -/
def projectile_motion (initial_velocity time acceleration : α) : α :=
  if initial_velocity = 0 then
    0.5 * acceleration * pow time 2
  else if time = 0 then
    initial_velocity * time + 0.5 * acceleration * pow time 2
  else if acceleration = 0 then
    initial_velocity * time
  else
    0

/-- Ohm's law, `ohms_law(voltage, resistance, current)`. -/
def ohms_law (voltage resistance current : α) : α :=
  if voltage = 0 then
    resistance * current
  else if resistance = 0 then
    voltage / current
  else if current = 0 then
    voltage / resistance
  else
    0

/-- Mass-energy equivalence, `mass_energy_equivalence(mass, speed_of_light)`. -/
def mass_energy_equivalence (mass speed_of_light : α) : α :=
  if mass = 0 then
    0
  else if speed_of_light = 0 then
    0
  else
    mass * pow speed_of_light 2

/-- Simple harmonic motion,
`simple_harmonic_motion(amplitude, angular_frequency, time, phase)`; the
first argument stands for the `sin` of `<cmath>`. -/
def simple_harmonic_motion (sin : α → α)
    (amplitude angular_frequency time phase : α) : α :=
  if amplitude = 0 then
    0
  else if angular_frequency = 0 then
    0
  else if time = 0 then
    amplitude * sin (angular_frequency * time + phase)
  else if phase = 0 then
    amplitude * sin (angular_frequency * time)
  else
    0

/-- Coulomb's law,
`coulombs_law(electrostatic_force, charge_one, charge_two, distance)`; the
first argument stands for the `sqrt` of `<cmath>`. -/
def coulombs_law (sqrt : α → α)
    (electrostatic_force charge_one charge_two distance : α) : α :=
  if electrostatic_force = 0 then
    (charge_one * charge_two) / pow distance 2
  else if charge_one = 0 then
    electrostatic_force * pow distance 2 / charge_two
  else if charge_two = 0 then
    electrostatic_force * pow distance 2 / charge_one
  else if distance = 0 then
    sqrt ((charge_one * charge_two) / electrostatic_force)
  else
    0

/-- Work-energy theorem,
`work_energy_theorem(work, kinetic_energy, potential_energy)`. -/
def work_energy_theorem (work kinetic_energy potential_energy : α) : α :=
  if work = 0 then
    kinetic_energy + potential_energy
  else if kinetic_energy = 0 then
    work - potential_energy
  else if potential_energy = 0 then
    work - kinetic_energy
  else
    0

/-- Ideal gas law,
`ideal_gas_law(pressure, volume, number_of_moles, gas_constant, temperature)`. -/
def ideal_gas_law
    (pressure volume number_of_moles gas_constant temperature : α) : α :=
  if pressure = 0 then
    (number_of_moles * gas_constant * temperature) / volume
  else if volume = 0 then
    (number_of_moles * gas_constant * temperature) / pressure
  else if number_of_moles = 0 then
    (pressure * volume) / (gas_constant * temperature)
  else if gas_constant = 0 then
    (pressure * volume) / (number_of_moles * temperature)
  else if temperature = 0 then
    (pressure * volume) / (number_of_moles * gas_constant)
  else
    0

/-! ## IEEE-754 binary64 arithmetic

A second embedding, in which a `double` is a binary64 value: a finite
sign-and-magnitude number, an infinity or NaN.  Every arithmetic operation
computes the exact rational result and rounds it to the nearest binary64
value, ties to even, overflowing to an infinity; it also reports whether it
divided by zero, took the square root of a negative number, or overflowed. -/

/-- Round a rational to the nearest integer, ties to the even one. -/
def roundHalfEven (x : ℚ) : ℤ :=
  if x - ⌊x⌋ < 1 / 2 then ⌊x⌋
  else if 1 / 2 < x - ⌊x⌋ then ⌊x⌋ + 1
  else if ⌊x⌋ % 2 = 0 then ⌊x⌋
  else ⌊x⌋ + 1

/-- The exponent of the spacing of binary64 values around the magnitude `q`:
53 significant bits in the binade of `q`, and the subnormal spacing
`2 ^ (-1074)` below `2 ^ (-1022)`. -/
def ulpExp (q : ℚ) : ℤ := max (Int.log 2 q) (-1022) - 52

/-- Round a magnitude to the nearest binary64 magnitude, ties to even;
`none` when the rounded value is `2 ^ 1024` or more (overflow). -/
def roundMag (q : ℚ) : Option ℚ :=
  if (roundHalfEven (q / 2 ^ ulpExp q) : ℚ) * 2 ^ ulpExp q < 2 ^ 1024 then
    some (roundHalfEven (q / 2 ^ ulpExp q) * 2 ^ ulpExp q)
  else
    none

/-- The correctly rounded square root of a binary64 magnitude: the nearest
multiple of the spacing in the binade of the root. -/
def sqrtMag (q : ℚ) : ℚ :=
  ((Nat.sqrt ⌊4 * q / (2 ^ (Int.log 2 q / 2 - 52)) ^ 2⌋₊ + 1) / 2 : ℕ) *
    2 ^ (Int.log 2 q / 2 - 52)

/-- A magnitude that is a binary64 value: rounding leaves it unchanged. -/
def Representable (q : ℚ) : Prop := 0 ≤ q ∧ roundMag q = some q

/-- A binary64 value: finite with a sign and a magnitude (zero keeps its
sign), an infinity with a sign, or NaN. -/
inductive Double where
  | fin (neg : Bool) (mag : ℚ)
  | inf (neg : Bool)
  | nan
deriving DecidableEq

/-- What went wrong while a value was computed: a division had a zero
divisor, a square root had a negative argument, an operation overflowed. -/
structure Flags where
  divZero : Bool
  sqrtNeg : Bool
  overflow : Bool
deriving DecidableEq

/-- A computed value with the flags raised on the way to it. -/
structure Flagged where
  val : Double
  flags : Flags
deriving DecidableEq

/-- No flag raised. -/
def Flags.clear : Flags := ⟨false, false, false⟩

/-- The flags raised in either of two computations. -/
def Flags.merge (a b : Flags) : Flags :=
  ⟨a.divZero || b.divZero, a.sqrtNeg || b.sqrtNeg, a.overflow || b.overflow⟩

/-- A value as given, with no flag raised. -/
def Flagged.pure (x : Double) : Flagged := ⟨x, Flags.clear⟩

/-- The literal `0`. -/
def Double.zero : Double := Double.fin false 0

/-- The literal `0.5`. -/
def Double.half : Double := Double.fin false (1 / 2)

/-- The test `x == 0`: true of both zeros, false of NaN. -/
def Double.isZero : Double → Bool
  | Double.fin _ q => decide (q = 0)
  | _ => false

/-- Neither an infinity nor NaN. -/
def Double.isFinite : Double → Bool
  | Double.fin _ _ => true
  | _ => false

/-- The rational value of a finite binary64 number given by its sign and
magnitude. -/
def signedMag (neg : Bool) (q : ℚ) : ℚ := if neg then -q else q

/-- The absolute value `fabs(x)`. -/
def Double.abs : Double → Double
  | Double.fin _ q => Double.fin false q
  | Double.inf _ => Double.inf false
  | Double.nan => Double.nan

/-- The comparison `x <= y`: false when either side is NaN. -/
def Double.le : Double → Double → Bool
  | Double.fin s p, Double.fin t q =>
      decide (signedMag s p ≤ signedMag t q)
  | Double.fin _ _, Double.inf t => !t
  | Double.inf s, Double.fin _ _ => s
  | Double.inf s, Double.inf t => s || !t
  | _, _ => false

/-- The comparison `x == y`: the zeros are equal, NaN equals nothing. -/
def Double.eq : Double → Double → Bool
  | Double.fin s p, Double.fin t q =>
      decide (signedMag s p = signedMag t q)
  | Double.inf s, Double.inf t => s == t
  | _, _ => false

/-- The finite result of sign `neg` and exact magnitude `q`, rounded; an
infinity and the overflow flag when it is too large. -/
def Double.rounded (neg : Bool) (q : ℚ) : Flagged :=
  match roundMag q with
  | some r => ⟨Double.fin neg r, Flags.clear⟩
  | none => ⟨Double.inf neg, ⟨false, false, true⟩⟩

/-- The product `x * y`. -/
def Double.mul : Double → Double → Flagged
  | Double.fin s p, Double.fin t q => Double.rounded (xor s t) (p * q)
  | Double.fin s p, Double.inf t =>
      if p = 0 then Flagged.pure Double.nan else Flagged.pure (Double.inf (xor s t))
  | Double.inf s, Double.fin t q =>
      if q = 0 then Flagged.pure Double.nan else Flagged.pure (Double.inf (xor s t))
  | Double.inf s, Double.inf t => Flagged.pure (Double.inf (xor s t))
  | _, _ => Flagged.pure Double.nan

/-- The quotient `x / y`; the flag `divZero` is raised when `y == 0`. -/
def Double.div : Double → Double → Flagged
  | Double.fin s p, Double.fin t q =>
      if q = 0 then
        ⟨if p = 0 then Double.nan else Double.inf (xor s t), ⟨true, false, false⟩⟩
      else
        Double.rounded (xor s t) (p / q)
  | Double.fin s _, Double.inf t => Flagged.pure (Double.fin (xor s t) 0)
  | Double.inf s, Double.fin t q =>
      ⟨Double.inf (xor s t), ⟨decide (q = 0), false, false⟩⟩
  | Double.nan, Double.fin _ q => ⟨Double.nan, ⟨decide (q = 0), false, false⟩⟩
  | _, _ => Flagged.pure Double.nan

/-- The sum `x + y`; an exact zero sum is `-0` only when both are negative. -/
def Double.add : Double → Double → Flagged
  | Double.fin s p, Double.fin t q =>
      if signedMag s p + signedMag t q = 0 then
        Flagged.pure (Double.fin (s && t) 0)
      else
        Double.rounded (decide (signedMag s p + signedMag t q < 0))
          |signedMag s p + signedMag t q|
  | Double.fin _ _, Double.inf t => Flagged.pure (Double.inf t)
  | Double.inf s, Double.fin _ _ => Flagged.pure (Double.inf s)
  | Double.inf s, Double.inf t =>
      if s = t then Flagged.pure (Double.inf s) else Flagged.pure Double.nan
  | _, _ => Flagged.pure Double.nan

/-- The negation `-x`. -/
def Double.neg : Double → Double
  | Double.fin s q => Double.fin (!s) q
  | Double.inf s => Double.inf (!s)
  | Double.nan => Double.nan

/-- The difference `x - y`, which is `x + (-y)`. -/
def Double.sub (x y : Double) : Flagged := Double.add x (Double.neg y)

/-- The call `pow(x, n)` at a natural exponent, taken to be correctly
rounded; the source only calls `pow(x, 2)`, the rounded square that `x * x`
computes.  `pow(x, 0)` is 1 for every `x`. -/
def Double.pow : Double → ℕ → Flagged
  | Double.fin s q, n => Double.rounded (s && decide (n % 2 = 1)) (q ^ n)
  | Double.inf s, n =>
      if n = 0 then Flagged.pure (Double.fin false 1)
      else Flagged.pure (Double.inf (s && decide (n % 2 = 1)))
  | Double.nan, n =>
      if n = 0 then Flagged.pure (Double.fin false 1) else Flagged.pure Double.nan

/-- The call `sqrt(x)`, correctly rounded; NaN and the flag `sqrtNeg` for a
negative argument, while `sqrt(-0)` is `-0`. -/
def Double.sqrt : Double → Flagged
  | Double.fin s q =>
      if s = true ∧ q ≠ 0 then ⟨Double.nan, ⟨false, true, false⟩⟩
      else Flagged.pure (Double.fin s (sqrtMag q))
  | Double.inf s =>
      if s = true then ⟨Double.nan, ⟨false, true, false⟩⟩
      else Flagged.pure (Double.inf false)
  | Double.nan => Flagged.pure Double.nan

/-- Apply a binary operation to two computed values, keeping every flag. -/
def Flagged.lift₂ (op : Double → Double → Flagged) (a b : Flagged) : Flagged :=
  ⟨(op a.val b.val).val, (a.flags.merge b.flags).merge (op a.val b.val).flags⟩

/-- Apply a unary operation to a computed value, keeping every flag. -/
def Flagged.lift₁ (op : Double → Flagged) (a : Flagged) : Flagged :=
  ⟨(op a.val).val, a.flags.merge (op a.val).flags⟩

instance instCoeDoubleFlagged : Coe Double Flagged := ⟨Flagged.pure⟩

instance instMulFlagged : Mul Flagged := ⟨Flagged.lift₂ Double.mul⟩

instance instDivFlagged : Div Flagged := ⟨Flagged.lift₂ Double.div⟩

instance instAddFlagged : Add Flagged := ⟨Flagged.lift₂ Double.add⟩

instance instSubFlagged : Sub Flagged := ⟨Flagged.lift₂ Double.sub⟩

/-- The call `pow(x, n)` on a computed value. -/
def Flagged.pow (x : Flagged) (n : ℕ) : Flagged := Flagged.lift₁ (fun y => Double.pow y n) x

/-- The call `sqrt(x)` on a computed value. -/
def Flagged.sqrt (x : Flagged) : Flagged := Flagged.lift₁ Double.sqrt x

/-- A call of a library function that raises none of the three flags. -/
def Flagged.map (f : Double → Double) (x : Flagged) : Flagged := ⟨f x.val, x.flags⟩

/-! ## The evaluators in binary64 arithmetic -/

/-- The source's `newton_second_law` on binary64 values. -/
def newton_second_law_double (force mass acceleration : Double) : Flagged :=
  if force.isZero then
    (mass : Flagged) * acceleration
  else if mass.isZero then
    (force : Flagged) / acceleration
  else if acceleration.isZero then
    (force : Flagged) / mass
  else
    Double.zero

/-- The source's `projectile_motion` on binary64 values. -/
def projectile_motion_double (initial_velocity time acceleration : Double) : Flagged :=
  if initial_velocity.isZero then
    (Double.half : Flagged) * acceleration * Flagged.pow time 2
  else if time.isZero then
    (initial_velocity : Flagged) * time +
      (Double.half : Flagged) * acceleration * Flagged.pow time 2
  else if acceleration.isZero then
    (initial_velocity : Flagged) * time
  else
    Double.zero

/-- The source's `ohms_law` on binary64 values. -/
def ohms_law_double (voltage resistance current : Double) : Flagged :=
  if voltage.isZero then
    (resistance : Flagged) * current
  else if resistance.isZero then
    (voltage : Flagged) / current
  else if current.isZero then
    (voltage : Flagged) / resistance
  else
    Double.zero

/-- The source's `mass_energy_equivalence` on binary64 values. -/
def mass_energy_equivalence_double (mass speed_of_light : Double) : Flagged :=
  if mass.isZero then
    Double.zero
  else if speed_of_light.isZero then
    Double.zero
  else
    (mass : Flagged) * Flagged.pow speed_of_light 2

/-- The source's `simple_harmonic_motion` on binary64 values; the first
argument stands for the `sin` of `<cmath>`. -/
def simple_harmonic_motion_double (sin : Double → Double)
    (amplitude angular_frequency time phase : Double) : Flagged :=
  if amplitude.isZero then
    Double.zero
  else if angular_frequency.isZero then
    Double.zero
  else if time.isZero then
    (amplitude : Flagged) * Flagged.map sin ((angular_frequency : Flagged) * time + phase)
  else if phase.isZero then
    (amplitude : Flagged) * Flagged.map sin ((angular_frequency : Flagged) * time)
  else
    Double.zero

/-- The source's `coulombs_law` on binary64 values. -/
def coulombs_law_double
    (electrostatic_force charge_one charge_two distance : Double) : Flagged :=
  if electrostatic_force.isZero then
    ((charge_one : Flagged) * charge_two) / Flagged.pow distance 2
  else if charge_one.isZero then
    (electrostatic_force : Flagged) * Flagged.pow distance 2 / charge_two
  else if charge_two.isZero then
    (electrostatic_force : Flagged) * Flagged.pow distance 2 / charge_one
  else if distance.isZero then
    Flagged.sqrt (((charge_one : Flagged) * charge_two) / electrostatic_force)
  else
    Double.zero

/-- The source's `work_energy_theorem` on binary64 values. -/
def work_energy_theorem_double (work kinetic_energy potential_energy : Double) : Flagged :=
  if work.isZero then
    (kinetic_energy : Flagged) + potential_energy
  else if kinetic_energy.isZero then
    (work : Flagged) - potential_energy
  else if potential_energy.isZero then
    (work : Flagged) - kinetic_energy
  else
    Double.zero

/-- The source's `ideal_gas_law` on binary64 values. -/
def ideal_gas_law_double
    (pressure volume number_of_moles gas_constant temperature : Double) : Flagged :=
  if pressure.isZero then
    ((number_of_moles : Flagged) * gas_constant * temperature) / volume
  else if volume.isZero then
    ((number_of_moles : Flagged) * gas_constant * temperature) / pressure
  else if number_of_moles.isZero then
    ((pressure : Flagged) * volume) / ((gas_constant : Flagged) * temperature)
  else if gas_constant.isZero then
    ((pressure : Flagged) * volume) / ((number_of_moles : Flagged) * temperature)
  else if temperature.isZero then
    ((pressure : Flagged) * volume) / ((number_of_moles : Flagged) * gas_constant)
  else
    Double.zero

/-- The displacement formula `v0*t + 0.5*a*t^2` of the spec, evaluated in
binary64 arithmetic (the expression of the second branch of
`projectile_motion`). -/
def displacement_formula_double (initial_velocity time acceleration : Double) : Flagged :=
  (initial_velocity : Flagged) * time +
    (Double.half : Flagged) * acceleration * Flagged.pow time 2

/-- Exactly one of the listed binary64 arguments satisfies `x == 0`. -/
def exactlyOneZero_double (args : List Double) : Prop :=
  List.countP Double.isZero args = 1

/-- A computed value that is finite whenever none of the three flags is
raised. -/
def Flagged.Safe (a : Flagged) : Prop := a.flags = Flags.clear → a.val.isFinite = true

/-! ## Helper lemmas: the all-supplied branch of each evaluator -/

lemma newton_second_law_all_supplied (f m a : α)
    (hf : f ≠ 0) (hm : m ≠ 0) (ha : a ≠ 0) : newton_second_law f m a = 0 := by
  simp [newton_second_law, hf, hm, ha]

lemma projectile_motion_all_supplied (v t a : α)
    (hv : v ≠ 0) (ht : t ≠ 0) (ha : a ≠ 0) : projectile_motion v t a = 0 := by
  simp [projectile_motion, hv, ht, ha]

lemma ohms_law_all_supplied (v r i : α)
    (hv : v ≠ 0) (hr : r ≠ 0) (hi : i ≠ 0) : ohms_law v r i = 0 := by
  simp [ohms_law, hv, hr, hi]

lemma simple_harmonic_motion_all_supplied (sin : α → α) (A w t p : α)
    (hA : A ≠ 0) (hw : w ≠ 0) (ht : t ≠ 0) (hp : p ≠ 0) :
    simple_harmonic_motion sin A w t p = 0 := by
  simp [simple_harmonic_motion, hA, hw, ht, hp]

lemma coulombs_law_all_supplied (sqrt : α → α) (F q₁ q₂ d : α)
    (hF : F ≠ 0) (h₁ : q₁ ≠ 0) (h₂ : q₂ ≠ 0) (hd : d ≠ 0) :
    coulombs_law sqrt F q₁ q₂ d = 0 := by
  simp [coulombs_law, hF, h₁, h₂, hd]

lemma work_energy_theorem_all_supplied (W K P : α)
    (hW : W ≠ 0) (hK : K ≠ 0) (hP : P ≠ 0) : work_energy_theorem W K P = 0 := by
  simp [work_energy_theorem, hW, hK, hP]

lemma ideal_gas_law_all_supplied (P V n R T : α)
    (hP : P ≠ 0) (hV : V ≠ 0) (hn : n ≠ 0) (hR : R ≠ 0) (hT : T ≠ 0) :
    ideal_gas_law P V n R T = 0 := by
  simp [ideal_gas_law, hP, hV, hn, hR, hT]

lemma mass_energy_equivalence_all_supplied (m c : α) (hm : m ≠ 0) (hc : c ≠ 0) :
    mass_energy_equivalence m c = m * c ^ 2 := by
  simp [mass_energy_equivalence, pow, hm, hc]

/-! ## The degenerate all-supplied case -/

/-- C1 (as stated, refuted): mass_energy_equivalence is one of the eight
evaluators, and at mass 5 and speed of light 3e8, neither of which is 0, it
returns 5 * (3e8)^2 = 450000000000000000, which is not 0. -/
theorem all_supplied_mass_energy_nonzero :
    (5 : ℚ) ≠ 0 ∧ (300000000 : ℚ) ≠ 0 ∧
    mass_energy_equivalence (5 : ℚ) 300000000 = 450000000000000000 ∧
    mass_energy_equivalence (5 : ℚ) 300000000 ≠ 0 := by
  norm_num [mass_energy_equivalence, pow]

/-- C1 (amended): on every input in which no quantity equals 0, each of the
seven evaluators newton_second_law, projectile_motion, ohms_law,
simple_harmonic_motion, coulombs_law, work_energy_theorem and ideal_gas_law
returns 0, whereas mass_energy_equivalence returns
mass * speed_of_light^2. -/
theorem all_supplied_result (α : Type) [LinearOrderedField α] :
    (∀ f m a : α, f ≠ 0 → m ≠ 0 → a ≠ 0 → newton_second_law f m a = 0) ∧
    (∀ v t a : α, v ≠ 0 → t ≠ 0 → a ≠ 0 → projectile_motion v t a = 0) ∧
    (∀ v r i : α, v ≠ 0 → r ≠ 0 → i ≠ 0 → ohms_law v r i = 0) ∧
    (∀ (sin : α → α) (A w t p : α), A ≠ 0 → w ≠ 0 → t ≠ 0 → p ≠ 0 →
      simple_harmonic_motion sin A w t p = 0) ∧
    (∀ (sqrt : α → α) (F q₁ q₂ d : α), F ≠ 0 → q₁ ≠ 0 → q₂ ≠ 0 → d ≠ 0 →
      coulombs_law sqrt F q₁ q₂ d = 0) ∧
    (∀ W K P : α, W ≠ 0 → K ≠ 0 → P ≠ 0 → work_energy_theorem W K P = 0) ∧
    (∀ P V n R T : α, P ≠ 0 → V ≠ 0 → n ≠ 0 → R ≠ 0 → T ≠ 0 →
      ideal_gas_law P V n R T = 0) ∧
    (∀ m c : α, m ≠ 0 → c ≠ 0 → mass_energy_equivalence m c = m * c ^ 2) :=
  ⟨newton_second_law_all_supplied, projectile_motion_all_supplied,
    ohms_law_all_supplied, simple_harmonic_motion_all_supplied,
    coulombs_law_all_supplied, work_energy_theorem_all_supplied,
    ideal_gas_law_all_supplied, mass_energy_equivalence_all_supplied⟩

/-- Witness for C1 (amended): the eight evaluators at concrete rational
inputs without a zero. -/
theorem all_supplied_result_witness :
    newton_second_law (10 : ℚ) 2 5 = 0 ∧
    projectile_motion (3 : ℚ) 2 1 = 0 ∧
    ohms_law (12 : ℚ) 4 3 = 0 ∧
    simple_harmonic_motion (fun x : ℚ => x) 1 2 3 4 = 0 ∧
    coulombs_law (fun x : ℚ => x) 1 2 3 4 = 0 ∧
    work_energy_theorem (7 : ℚ) 3 4 = 0 ∧
    ideal_gas_law (1 : ℚ) 2 3 4 5 = 0 ∧
    mass_energy_equivalence (5 : ℚ) 3 = 5 * 3 ^ 2 :=
  ⟨(all_supplied_result ℚ).1 10 2 5 (by norm_num) (by norm_num) (by norm_num),
   (all_supplied_result ℚ).2.1 3 2 1 (by norm_num) (by norm_num) (by norm_num),
   (all_supplied_result ℚ).2.2.1 12 4 3 (by norm_num) (by norm_num) (by norm_num),
   (all_supplied_result ℚ).2.2.2.1 (fun x => x) 1 2 3 4
     (by norm_num) (by norm_num) (by norm_num) (by norm_num),
   (all_supplied_result ℚ).2.2.2.2.1 (fun x => x) 1 2 3 4
     (by norm_num) (by norm_num) (by norm_num) (by norm_num),
   (all_supplied_result ℚ).2.2.2.2.2.1 7 3 4 (by norm_num) (by norm_num) (by norm_num),
   (all_supplied_result ℚ).2.2.2.2.2.2.1 1 2 3 4 5
     (by norm_num) (by norm_num) (by norm_num) (by norm_num) (by norm_num),
   (all_supplied_result ℚ).2.2.2.2.2.2.2 5 3 (by norm_num) (by norm_num)⟩

/-- C2: for each of newton_second_law, projectile_motion, ohms_law,
simple_harmonic_motion, coulombs_law, work_energy_theorem and ideal_gas_law,
every input whose arguments are all non-zero gives the result 0. -/
theorem seven_evaluators_all_nonzero (α : Type) [LinearOrderedField α] :
    (∀ f m a : α, f ≠ 0 → m ≠ 0 → a ≠ 0 → newton_second_law f m a = 0) ∧
    (∀ v t a : α, v ≠ 0 → t ≠ 0 → a ≠ 0 → projectile_motion v t a = 0) ∧
    (∀ v r i : α, v ≠ 0 → r ≠ 0 → i ≠ 0 → ohms_law v r i = 0) ∧
    (∀ (sin : α → α) (A w t p : α), A ≠ 0 → w ≠ 0 → t ≠ 0 → p ≠ 0 →
      simple_harmonic_motion sin A w t p = 0) ∧
    (∀ (sqrt : α → α) (F q₁ q₂ d : α), F ≠ 0 → q₁ ≠ 0 → q₂ ≠ 0 → d ≠ 0 →
      coulombs_law sqrt F q₁ q₂ d = 0) ∧
    (∀ W K P : α, W ≠ 0 → K ≠ 0 → P ≠ 0 → work_energy_theorem W K P = 0) ∧
    (∀ P V n R T : α, P ≠ 0 → V ≠ 0 → n ≠ 0 → R ≠ 0 → T ≠ 0 →
      ideal_gas_law P V n R T = 0) :=
  ⟨newton_second_law_all_supplied, projectile_motion_all_supplied,
    ohms_law_all_supplied, simple_harmonic_motion_all_supplied,
    coulombs_law_all_supplied, work_energy_theorem_all_supplied,
    ideal_gas_law_all_supplied⟩

/-- Witness for C2: newton_second_law(10, 2, 5) = 0, and the other six
evaluators at concrete real inputs without a zero, among them
simple_harmonic_motion with the real sine and coulombs_law with the real
square root. -/
theorem seven_evaluators_all_nonzero_witness :
    newton_second_law (10 : ℝ) 2 5 = 0 ∧
    projectile_motion (20 : ℝ) 3 (-10) = 0 ∧
    ohms_law (5 : ℝ) 10 2 = 0 ∧
    simple_harmonic_motion Real.sin 2 3 1 1 = 0 ∧
    coulombs_law Real.sqrt 10 2 3 4 = 0 ∧
    work_energy_theorem (9 : ℝ) 4 5 = 0 ∧
    ideal_gas_law (2 : ℝ) 3 1 8 300 = 0 :=
  ⟨(seven_evaluators_all_nonzero ℝ).1 10 2 5 (by norm_num) (by norm_num) (by norm_num),
   (seven_evaluators_all_nonzero ℝ).2.1 20 3 (-10)
     (by norm_num) (by norm_num) (by norm_num),
   (seven_evaluators_all_nonzero ℝ).2.2.1 5 10 2
     (by norm_num) (by norm_num) (by norm_num),
   (seven_evaluators_all_nonzero ℝ).2.2.2.1 Real.sin 2 3 1 1
     (by norm_num) (by norm_num) (by norm_num) (by norm_num),
   (seven_evaluators_all_nonzero ℝ).2.2.2.2.1 Real.sqrt 10 2 3 4
     (by norm_num) (by norm_num) (by norm_num) (by norm_num),
   (seven_evaluators_all_nonzero ℝ).2.2.2.2.2.1 9 4 5
     (by norm_num) (by norm_num) (by norm_num),
   (seven_evaluators_all_nonzero ℝ).2.2.2.2.2.2 2 3 1 8 300
     (by norm_num) (by norm_num) (by norm_num) (by norm_num) (by norm_num)⟩

/-! ## Mass-energy equivalence -/

/-- C3: mass_energy_equivalence returns 0 for every speed_of_light when
mass = 0, returns 0 for every non-zero mass when speed_of_light = 0, and
returns mass * speed_of_light^2 when both are non-zero. -/
theorem mass_energy_equivalence_branches (α : Type) [LinearOrderedField α] :
    (∀ c : α, mass_energy_equivalence 0 c = 0) ∧
    (∀ m : α, m ≠ 0 → mass_energy_equivalence m 0 = 0) ∧
    (∀ m c : α, m ≠ 0 → c ≠ 0 → mass_energy_equivalence m c = m * c ^ 2) := by
  refine ⟨fun c => ?_, fun m hm => ?_, mass_energy_equivalence_all_supplied⟩
  · simp [mass_energy_equivalence]
  · simp [mass_energy_equivalence, hm]

/-- Witness for C3: the three calls (0, 3e8), (5, 0) and (5, 3e8). -/
theorem mass_energy_equivalence_branches_witness :
    mass_energy_equivalence (0 : ℚ) 300000000 = 0 ∧
    mass_energy_equivalence (5 : ℚ) 0 = 0 ∧
    mass_energy_equivalence (5 : ℚ) 300000000 = 5 * 300000000 ^ 2 :=
  ⟨(mass_energy_equivalence_branches ℚ).1 300000000,
   (mass_energy_equivalence_branches ℚ).2.1 5 (by norm_num),
   (mass_energy_equivalence_branches ℚ).2.2 5 300000000 (by norm_num) (by norm_num)⟩

/-! ## Ohm's law -/

/-- C5: with voltage = 0, ohms_law(0, resistance, current) is
resistance * current for every resistance and current, zero ones included;
in particular ohms_law(0, 0, current) = 0 for every current, and
ohms_law(0, 0, 2) = 0. -/
theorem ohms_law_voltage_pivot (α : Type) [LinearOrderedField α] :
    (∀ v r i : α, v = 0 → ohms_law v r i = r * i) ∧
    (∀ i : α, ohms_law 0 0 i = 0) ∧
    ohms_law (0 : α) 0 2 = 0 := by
  refine ⟨fun v r i hv => ?_, fun i => ?_, ?_⟩ <;> simp [ohms_law, *]

/-- Witness for C5: the voltage pivot at rational inputs with a zero
resistance, a zero current, and neither. -/
theorem ohms_law_voltage_pivot_witness :
    ohms_law (0 : ℚ) 0 2 = 0 * 2 ∧ ohms_law (0 : ℚ) 3 0 = 3 * 0 ∧
    ohms_law (0 : ℚ) 3 2 = 3 * 2 :=
  ⟨(ohms_law_voltage_pivot ℚ).1 0 0 2 rfl, (ohms_law_voltage_pivot ℚ).1 0 3 0 rfl,
   (ohms_law_voltage_pivot ℚ).1 0 3 2 rfl⟩

/-! ## Work-energy theorem -/

/-- C8: whenever W = KE + PE: if KE and PE are non-zero then
work_energy_theorem(0, KE, PE) = W; if W and PE are non-zero then
work_energy_theorem(W, 0, PE) = KE; if W and KE are non-zero then
work_energy_theorem(W, KE, 0) = PE. -/
theorem work_energy_theorem_single_unknown (α : Type) [LinearOrderedField α]
    (W KE PE : α) (h : W = KE + PE) :
    (KE ≠ 0 → PE ≠ 0 → work_energy_theorem 0 KE PE = W) ∧
    (W ≠ 0 → PE ≠ 0 → work_energy_theorem W 0 PE = KE) ∧
    (W ≠ 0 → KE ≠ 0 → work_energy_theorem W KE 0 = PE) := by
  refine ⟨fun _ _ => ?_, fun hW _ => ?_, fun hW hK => ?_⟩
  · simp [work_energy_theorem, h]
  · simp only [work_energy_theorem, if_neg hW, if_true]
    rw [h]
    ring
  · simp only [work_energy_theorem, if_neg hW, if_neg hK, if_true]
    rw [h]
    ring

/-- Witness for C8: W = 7, KE = 3, PE = 4. -/
theorem work_energy_theorem_single_unknown_witness :
    (7 : ℚ) = 3 + 4 ∧
    work_energy_theorem (0 : ℚ) 3 4 = 7 ∧
    work_energy_theorem (7 : ℚ) 0 4 = 3 ∧
    work_energy_theorem (7 : ℚ) 3 0 = 4 :=
  have h := work_energy_theorem_single_unknown ℚ 7 3 4 (by norm_num)
  ⟨by norm_num, h.1 (by norm_num) (by norm_num), h.2.1 (by norm_num) (by norm_num),
    h.2.2 (by norm_num) (by norm_num)⟩

/-! ## Simple harmonic motion -/

/-- C9: simple_harmonic_motion(A, w, t, phi) returns 0 when A = 0; 0 when
A ≠ 0 and w = 0; A * sin(w*t + phi), which equals A * sin(phi), when A ≠ 0,
w ≠ 0 and t = 0; A * sin(w*t) when A, w, t are non-zero and phi = 0; and 0
when all four are non-zero. -/
theorem simple_harmonic_motion_branches (α : Type) [LinearOrderedField α]
    (sin : α → α) (A w t phi : α) :
    (A = 0 → simple_harmonic_motion sin A w t phi = 0) ∧
    (A ≠ 0 → w = 0 → simple_harmonic_motion sin A w t phi = 0) ∧
    (A ≠ 0 → w ≠ 0 → t = 0 →
      simple_harmonic_motion sin A w t phi = A * sin (w * t + phi) ∧
      simple_harmonic_motion sin A w t phi = A * sin phi) ∧
    (A ≠ 0 → w ≠ 0 → t ≠ 0 → phi = 0 →
      simple_harmonic_motion sin A w t phi = A * sin (w * t)) ∧
    (A ≠ 0 → w ≠ 0 → t ≠ 0 → phi ≠ 0 →
      simple_harmonic_motion sin A w t phi = 0) := by
  refine ⟨fun hA => ?_, fun hA hw => ?_, fun hA hw ht => ?_,
    fun hA hw ht hp => ?_, fun hA hw ht hp => ?_⟩
  · simp [simple_harmonic_motion, hA]
  · simp [simple_harmonic_motion, hA, hw]
  · simp [simple_harmonic_motion, hA, hw, ht]
  · simp [simple_harmonic_motion, hA, hw, ht, hp]
  · simp [simple_harmonic_motion, hA, hw, ht, hp]

/-- Witness for C9: one real input per branch, with the real sine. -/
theorem simple_harmonic_motion_branches_witness :
    simple_harmonic_motion Real.sin 0 2 3 4 = 0 ∧
    simple_harmonic_motion Real.sin 1 0 3 4 = 0 ∧
    (simple_harmonic_motion Real.sin 5 2 0 4 = 5 * Real.sin (2 * 0 + 4) ∧
      simple_harmonic_motion Real.sin 5 2 0 4 = 5 * Real.sin 4) ∧
    simple_harmonic_motion Real.sin 5 2 3 0 = 5 * Real.sin (2 * 3) ∧
    simple_harmonic_motion Real.sin 5 2 3 4 = 0 :=
  ⟨(simple_harmonic_motion_branches ℝ Real.sin 0 2 3 4).1 rfl,
   (simple_harmonic_motion_branches ℝ Real.sin 1 0 3 4).2.1 (by norm_num) rfl,
   (simple_harmonic_motion_branches ℝ Real.sin 5 2 0 4).2.2.1
     (by norm_num) (by norm_num) rfl,
   (simple_harmonic_motion_branches ℝ Real.sin 5 2 3 0).2.2.2.1
     (by norm_num) (by norm_num) (by norm_num) rfl,
   (simple_harmonic_motion_branches ℝ Real.sin 5 2 3 4).2.2.2.2
     (by norm_num) (by norm_num) (by norm_num) (by norm_num)⟩

/-! ## Projectile motion -/

/-- C10: projectile_motion(0, t, a) = 0.5 * a * t^2 for every t and a; for
non-zero v0 and every a, projectile_motion(v0, 0, a) is
v0*t + 0.5*a*t^2 at t = 0, hence 0; for non-zero v0 and non-zero t,
projectile_motion(v0, t, 0) = v0 * t. -/
theorem projectile_motion_branches (α : Type) [LinearOrderedField α] :
    (∀ t a : α, projectile_motion 0 t a = 0.5 * a * t ^ 2) ∧
    (∀ v0 a : α, v0 ≠ 0 →
      projectile_motion v0 0 a = v0 * 0 + 0.5 * a * 0 ^ 2 ∧
      projectile_motion v0 0 a = 0) ∧
    (∀ v0 t : α, v0 ≠ 0 → t ≠ 0 → projectile_motion v0 t 0 = v0 * t) := by
  refine ⟨fun t a => ?_, fun v0 a hv => ?_, fun v0 t hv ht => ?_⟩
  · simp [projectile_motion, pow]
  · simp [projectile_motion, pow, hv]
  · simp [projectile_motion, hv, ht]

/-- Witness for C10: the three branches at rational inputs. -/
theorem projectile_motion_branches_witness :
    projectile_motion (0 : ℚ) 2 3 = 0.5 * 3 * 2 ^ 2 ∧
    (projectile_motion (4 : ℚ) 0 3 = 4 * 0 + 0.5 * 3 * 0 ^ 2 ∧
      projectile_motion (4 : ℚ) 0 3 = 0) ∧
    projectile_motion (4 : ℚ) 2 0 = 4 * 2 :=
  ⟨(projectile_motion_branches ℚ).1 2 3,
   (projectile_motion_branches ℚ).2.1 4 3 (by norm_num),
   (projectile_motion_branches ℚ).2.2 4 2 (by norm_num) (by norm_num)⟩

/-! ## Mass-energy equivalence in exact arithmetic -/

/-- C13: in exact arithmetic the two branches of mass_energy_equivalence
that return 0 cannot be told apart from the formula: for every mass m and
speed_of_light c, zero values included, the result is m * c^2. -/
theorem mass_energy_equivalence_eq_formula (α : Type) [LinearOrderedField α]
    (m c : α) : mass_energy_equivalence m c = m * c ^ 2 := by
  unfold mass_energy_equivalence pow
  split_ifs with hm hc
  · rw [hm, zero_mul]
  · rw [hc]
    simp
  · rfl

/-! ## Rounding lemmas -/

lemma floor_le_roundHalfEven (x : ℚ) : ⌊x⌋ ≤ roundHalfEven x := by
  unfold roundHalfEven
  split_ifs <;> omega

lemma roundHalfEven_le_floor_add_one (x : ℚ) : roundHalfEven x ≤ ⌊x⌋ + 1 := by
  unfold roundHalfEven
  split_ifs <;> omega

lemma roundHalfEven_intCast (n : ℤ) : roundHalfEven (n : ℚ) = n := by
  simp [roundHalfEven]

lemma le_roundHalfEven (x : ℚ) (N : ℤ) (h : (N : ℚ) ≤ x) : N ≤ roundHalfEven x :=
  le_trans (Int.le_floor.mpr h) (floor_le_roundHalfEven x)

lemma roundHalfEven_le (x : ℚ) (N : ℤ) (h : x ≤ (N : ℚ)) : roundHalfEven x ≤ N := by
  rcases eq_or_lt_of_le h with h | h
  · rw [h, roundHalfEven_intCast]
  · have : ⌊x⌋ < N := Int.floor_lt.mpr h
    have := roundHalfEven_le_floor_add_one x
    omega

lemma roundHalfEven_eq (x : ℚ) (n : ℤ) (h₁ : (n : ℚ) - 1 / 2 < x)
    (h₂ : x < (n : ℚ) + 1 / 2) : roundHalfEven x = n := by
  have hfl := Int.floor_le x
  have hlt := Int.lt_floor_add_one x
  have hcases : ⌊x⌋ = n ∨ ⌊x⌋ = n - 1 := by
    have h3 : ⌊x⌋ < n + 1 := by
      rw [Int.floor_lt]
      push_cast
      linarith
    have h4 : n - 1 ≤ ⌊x⌋ := by
      rw [Int.le_floor]
      push_cast
      linarith
    omega
  unfold roundHalfEven
  rcases hcases with hf | hf
  · have hx : x - (⌊x⌋ : ℚ) < 1 / 2 := by
      rw [hf]
      linarith
    rw [if_pos hx, hf]
  · have hx : 1 / 2 < x - (⌊x⌋ : ℚ) := by
      rw [hf]
      push_cast
      linarith
    rw [if_neg (not_lt.mpr hx.le), if_pos hx, hf]
    ring

lemma roundHalfEven_tie (k : ℤ) :
    roundHalfEven ((k : ℚ) + 1 / 2) = if k % 2 = 0 then k else k + 1 := by
  have hf : ⌊(k : ℚ) + 1 / 2⌋ = k := by
    rw [Int.floor_eq_iff]
    constructor <;> linarith
  unfold roundHalfEven
  rw [hf]
  have h1 : ¬ ((k : ℚ) + 1 / 2 - (k : ℚ) < 1 / 2) := by
    rw [add_sub_cancel_left]
    exact lt_irrefl _
  have h2 : ¬ ((1 : ℚ) / 2 < (k : ℚ) + 1 / 2 - (k : ℚ)) := by
    rw [add_sub_cancel_left]
    exact lt_irrefl _
  rw [if_neg h1, if_neg h2]

lemma int_log_two_eq (q : ℚ) (e : ℤ) (hlo : (2 : ℚ) ^ e ≤ q) (hhi : q < 2 ^ (e + 1)) :
    Int.log 2 q = e := by
  have hq : 0 < q := lt_of_lt_of_le (zpow_pos (by norm_num) e) hlo
  have h1 : e ≤ Int.log 2 q := by
    rw [← Int.zpow_le_iff_le_log (by norm_num) hq]
    exact_mod_cast hlo
  have h2 : Int.log 2 q < e + 1 := by
    rw [← Int.lt_zpow_iff_log_lt (by norm_num) hq]
    exact_mod_cast hhi
  omega

lemma ulpExp_eq (q : ℚ) (e : ℤ) (hlo : (2 : ℚ) ^ e ≤ q) (hhi : q < 2 ^ (e + 1)) :
    ulpExp q = max e (-1022) - 52 := by
  unfold ulpExp
  rw [int_log_two_eq q e hlo hhi]

lemma ulpExp_ge (q : ℚ) : -1074 ≤ ulpExp q := by
  unfold ulpExp
  have := le_max_right (Int.log 2 q) (-1022)
  omega

lemma ulpExp_mono (q₁ q₂ : ℚ) (h₀ : 0 < q₁) (h : q₁ ≤ q₂) : ulpExp q₁ ≤ ulpExp q₂ := by
  unfold ulpExp
  have := Int.log_mono_right (b := 2) h₀ h
  have := max_le_max_right (-1022) this
  omega

lemma two_zpow_pos (e : ℤ) : (0 : ℚ) < 2 ^ e := zpow_pos (by norm_num) e

/-- Below `2 ^ (ulpExp q + 53)`: the scaled magnitude is less than `2 ^ 53`. -/
lemma lt_two_zpow_ulpExp_add (q : ℚ) : q < 2 ^ (ulpExp q + 53) := by
  have h := Int.lt_zpow_succ_log_self (b := 2) (by norm_num) q
  have h' : q < (2 : ℚ) ^ (Int.log 2 q + 1) := by exact_mod_cast h
  refine lt_of_lt_of_le h' ?_
  apply zpow_le_zpow_right₀ (by norm_num)
  unfold ulpExp
  have := le_max_left (Int.log 2 q) (-1022)
  omega

/-- From `2 ^ (-1074)` on, the spacing is at most the magnitude. -/
lemma two_zpow_ulpExp_le (q : ℚ) (hq : (2 : ℚ) ^ (-1074 : ℤ) ≤ q) : (2 : ℚ) ^ ulpExp q ≤ q := by
  have hpos : 0 < q := lt_of_lt_of_le (two_zpow_pos _) hq
  unfold ulpExp
  rcases le_total (Int.log 2 q) (-1022) with h | h
  · rw [max_eq_right h]
    exact hq
  · rw [max_eq_left h]
    have h1 := Int.zpow_log_le_self (b := 2) (by norm_num) hpos
    have h1' : (2 : ℚ) ^ Int.log 2 q ≤ q := by exact_mod_cast h1
    refine le_trans ?_ h1'
    apply zpow_le_zpow_right₀ (by norm_num)
    omega

lemma roundMag_zero : roundMag 0 = some 0 := by
  simp [roundMag, roundHalfEven]

/-- A rounded magnitude is not negative. -/
lemma roundMag_nonneg (q r : ℚ) (hq : 0 ≤ q) (h : roundMag q = some r) : 0 ≤ r := by
  unfold roundMag at h
  split_ifs at h
  rw [← Option.some.inj h]
  have h0 : (0 : ℤ) ≤ roundHalfEven (q / 2 ^ ulpExp q) :=
    le_roundHalfEven _ 0 (by
      push_cast
      exact div_nonneg hq (two_zpow_pos _).le)
  exact mul_nonneg (by exact_mod_cast h0) (two_zpow_pos _).le

/-- A magnitude that is an integer multiple of a spacing `2 ^ u` no finer
than its own, and below `2 ^ 1024`, rounds to itself. -/
lemma roundMag_of_multiple (q : ℚ) (N : ℤ) (u : ℤ) (hu : ulpExp q ≤ u)
    (hq : q = (N : ℚ) * 2 ^ u) (hlt : q < 2 ^ 1024) : roundMag q = some q := by
  obtain ⟨k, hk⟩ := Int.eq_ofNat_of_zero_le (sub_nonneg.mpr hu)
  have hdiv : q / 2 ^ ulpExp q = ((N * 2 ^ k : ℤ) : ℚ) := by
    generalize ulpExp q = v at hk
    rw [div_eq_iff (two_zpow_pos _).ne', hq]
    push_cast
    rw [mul_assoc, ← zpow_natCast, ← zpow_add₀ (by norm_num : (2 : ℚ) ≠ 0), ← hk]
    congr 2
    ring
  have hr : (roundHalfEven (q / 2 ^ ulpExp q) : ℚ) * 2 ^ ulpExp q = q := by
    rw [hdiv, roundHalfEven_intCast, ← hdiv]
    exact div_mul_cancel₀ q (two_zpow_pos _).ne'
  unfold roundMag
  rw [hr, if_pos hlt]

/-- Below `2 ^ (u + 53)` the spacing exponent is at most `u`. -/
lemma ulpExp_le_of_lt (r : ℚ) (u : ℤ) (hu : -1074 ≤ u) (hr : 0 < r)
    (h : r < 2 ^ (u + 53)) : ulpExp r ≤ u := by
  have hlog : Int.log 2 r < u + 53 := by
    rw [← Int.lt_zpow_iff_log_lt (by norm_num) hr]
    exact_mod_cast h
  unfold ulpExp
  rcases le_total (Int.log 2 r) (-1022) with h1 | h1
  · rw [max_eq_right h1]
    omega
  · rw [max_eq_left h1]
    omega

/-- Every `n * 2 ^ j` with `n < 2 ^ 53`, `j ≥ -1074` and below `2 ^ 1024` is
a binary64 magnitude. -/
lemma representable_of_scaled (n : ℕ) (j : ℤ) (hn : n < 2 ^ 53) (hj : -1074 ≤ j)
    (hlt : (n : ℚ) * 2 ^ j < 2 ^ 1024) : Representable ((n : ℚ) * 2 ^ j) := by
  have hnn : (0 : ℚ) ≤ (n : ℚ) * 2 ^ j := mul_nonneg (Nat.cast_nonneg n) (two_zpow_pos j).le
  refine ⟨hnn, ?_⟩
  rcases Nat.eq_zero_or_pos n with h0 | hpos
  · subst h0
    simpa using roundMag_zero
  have hqpos : (0 : ℚ) < (n : ℚ) * 2 ^ j :=
    mul_pos (by exact_mod_cast hpos) (two_zpow_pos j)
  have hbound : (n : ℚ) * 2 ^ j < 2 ^ (j + 53) := by
    have h2 : (n : ℚ) < 2 ^ (53 : ℕ) := by exact_mod_cast hn
    have h3 : (2 : ℚ) ^ (j + 53) = 2 ^ (53 : ℕ) * 2 ^ j := by
      rw [zpow_add₀ (by norm_num), mul_comm]
      norm_num
    rw [h3]
    exact mul_lt_mul_of_pos_right h2 (two_zpow_pos j)
  exact roundMag_of_multiple _ (n : ℤ) j (ulpExp_le_of_lt _ j hj hqpos hbound)
    (by push_cast; rfl) hlt

/-- A rounded magnitude is a binary64 magnitude: rounding is idempotent. -/
lemma representable_of_roundMag (q r : ℚ) (hq : 0 ≤ q) (h : roundMag q = some r) :
    Representable r := by
  refine ⟨roundMag_nonneg q r hq h, ?_⟩
  have h' := h
  unfold roundMag at h'
  split_ifs at h' with hlt
  have hr := Option.some.inj h'
  rcases eq_or_lt_of_le (roundMag_nonneg q r hq h) with h0 | hpos
  · rw [← h0]
    exact roundMag_zero
  have hrlt : r < 2 ^ 1024 := by
    rw [← hr]
    exact hlt
  have hn53 : roundHalfEven (q / 2 ^ ulpExp q) ≤ 2 ^ 53 := by
    apply roundHalfEven_le
    push_cast
    rw [div_le_iff₀ (two_zpow_pos _)]
    have := lt_two_zpow_ulpExp_add q
    rw [zpow_add₀ (by norm_num : (2 : ℚ) ≠ 0)] at this
    have h53 : (2 : ℚ) ^ (53 : ℤ) = 2 ^ 53 := by norm_num
    rw [h53, mul_comm] at this
    exact this.le
  have h53 : ∀ u : ℤ, (2 : ℚ) ^ (u + 53) = 2 ^ 53 * 2 ^ u := by
    intro u
    rw [zpow_add₀ (by norm_num), mul_comm]
    norm_num
  rcases eq_or_lt_of_le hn53 with heq | hlt53
  · -- the rounding carried into the next binade
    have hr2 : r = ((2 ^ 52 : ℤ) : ℚ) * 2 ^ (ulpExp q + 1) := by
      rw [← hr, heq, zpow_add₀ (by norm_num : (2 : ℚ) ≠ 0)]
      push_cast
      ring
    have hrb : r < 2 ^ (ulpExp q + 1 + 53) := by
      rw [← hr, heq, h53, zpow_add₀ (by norm_num : (2 : ℚ) ≠ 0)]
      push_cast
      have := two_zpow_pos (ulpExp q)
      linarith
    exact roundMag_of_multiple r _ (ulpExp q + 1)
      (ulpExp_le_of_lt r _ (by have := ulpExp_ge q; omega) hpos hrb) hr2 hrlt
  · have hrb : r < 2 ^ (ulpExp q + 53) := by
      rw [← hr, h53]
      apply mul_lt_mul_of_pos_right _ (two_zpow_pos _)
      exact_mod_cast hlt53
    exact roundMag_of_multiple r _ (ulpExp q)
      (ulpExp_le_of_lt r _ (ulpExp_ge q) hpos hrb) hr.symm hrlt

/-- A binary64 magnitude is below `2 ^ 1024` and an integer multiple of its
own spacing. -/
lemma Representable.spec {A : ℚ} (hA : Representable A) :
    A < 2 ^ 1024 ∧ (roundHalfEven (A / 2 ^ ulpExp A) : ℚ) * 2 ^ ulpExp A = A := by
  have h := hA.2
  unfold roundMag at h
  split_ifs at h with hlt
  have hr := Option.some.inj h
  rw [hr] at hlt
  exact ⟨hlt, hr⟩

/-- From the smallest positive binary64 magnitude on, nothing rounds to 0. -/
lemma roundMag_pos (q r : ℚ) (hq : (2 : ℚ) ^ (-1074 : ℤ) ≤ q) (h : roundMag q = some r) :
    0 < r := by
  unfold roundMag at h
  split_ifs at h
  rw [← Option.some.inj h]
  have h1 : (1 : ℤ) ≤ roundHalfEven (q / 2 ^ ulpExp q) :=
    le_roundHalfEven _ 1 (by
      push_cast
      rw [le_div_iff₀ (two_zpow_pos _), one_mul]
      exact two_zpow_ulpExp_le q hq)
  have h2 : (0 : ℚ) < (roundHalfEven (q / 2 ^ ulpExp q) : ℚ) := by exact_mod_cast h1
  exact mul_pos h2 (two_zpow_pos _)

/-- Rounding does not pass a binary64 magnitude: below `A` stays below `A`,
and in particular does not overflow. -/
lemma roundMag_le_of_le (x A : ℚ) (hx : 0 ≤ x) (hxA : x ≤ A) (hA : Representable A) :
    ∃ r, roundMag x = some r ∧ 0 ≤ r ∧ r ≤ A := by
  rcases eq_or_lt_of_le hx with h0 | hpos
  · exact ⟨0, by rw [← h0]; exact roundMag_zero, le_refl _, hA.1⟩
  obtain ⟨hAlt, hAeq⟩ := hA.spec
  obtain ⟨k, hk⟩ := Int.eq_ofNat_of_zero_le (sub_nonneg.mpr (ulpExp_mono x A hpos hxA))
  have hAdiv : A / 2 ^ ulpExp x =
      ((roundHalfEven (A / 2 ^ ulpExp A) * 2 ^ k : ℤ) : ℚ) := by
    rw [div_eq_iff (two_zpow_pos _).ne']
    push_cast
    rw [mul_assoc, ← zpow_natCast, ← zpow_add₀ (by norm_num : (2 : ℚ) ≠ 0), ← hk]
    rw [sub_add_cancel]
    exact hAeq.symm
  have hn : roundHalfEven (x / 2 ^ ulpExp x) ≤ roundHalfEven (A / 2 ^ ulpExp A) * 2 ^ k := by
    apply roundHalfEven_le
    rw [← hAdiv]
    exact div_le_div_of_nonneg_right hxA (two_zpow_pos _).le
  have hle : (roundHalfEven (x / 2 ^ ulpExp x) : ℚ) * 2 ^ ulpExp x ≤ A := by
    have h1 : (roundHalfEven (x / 2 ^ ulpExp x) : ℚ) ≤ A / 2 ^ ulpExp x := by
      rw [hAdiv]
      exact_mod_cast hn
    rwa [le_div_iff₀ (two_zpow_pos _)] at h1
  have hsome : roundMag x =
      some ((roundHalfEven (x / 2 ^ ulpExp x) : ℚ) * 2 ^ ulpExp x) := by
    unfold roundMag
    rw [if_pos (lt_of_le_of_lt hle hAlt)]
  exact ⟨_, hsome, roundMag_nonneg x _ hx hsome, hle⟩

/-- From `2 ^ 1024` on, rounding overflows. -/
lemma roundMag_eq_none (q : ℚ) (hq : (2 : ℚ) ^ (1024 : ℤ) ≤ q) : roundMag q = none := by
  have hpos : 0 < q := lt_of_lt_of_le (two_zpow_pos _) hq
  have hlog : (1024 : ℤ) ≤ Int.log 2 q := by
    rw [← Int.zpow_le_iff_le_log (by norm_num) hpos]
    exact_mod_cast hq
  have hu : ulpExp q = Int.log 2 q - 52 := by
    unfold ulpExp
    rw [max_eq_left (by omega)]
  have hself : (2 : ℚ) ^ Int.log 2 q ≤ q := by
    have := Int.zpow_log_le_self (b := 2) (by norm_num) hpos
    exact_mod_cast this
  have hn : (2 ^ 52 : ℤ) ≤ roundHalfEven (q / 2 ^ ulpExp q) := by
    apply le_roundHalfEven
    have h52 : ((2 ^ 52 : ℤ) : ℚ) = 2 ^ (52 : ℤ) := by norm_num
    rw [le_div_iff₀ (two_zpow_pos _), hu, h52, ← zpow_add₀ (by norm_num : (2 : ℚ) ≠ 0)]
    have : (52 : ℤ) + (Int.log 2 q - 52) = Int.log 2 q := by ring
    rw [this]
    exact hself
  have hge : (2 : ℚ) ^ 1024 ≤ (roundHalfEven (q / 2 ^ ulpExp q) : ℚ) * 2 ^ ulpExp q := by
    have h1 : ((2 ^ 52 : ℤ) : ℚ) * 2 ^ ulpExp q ≤
        (roundHalfEven (q / 2 ^ ulpExp q) : ℚ) * 2 ^ ulpExp q :=
      mul_le_mul_of_nonneg_right (by exact_mod_cast hn) (two_zpow_pos _).le
    refine le_trans ?_ h1
    have h52 : ((2 ^ 52 : ℤ) : ℚ) = 2 ^ (52 : ℤ) := by norm_num
    have h1024 : (2 : ℚ) ^ 1024 = 2 ^ (1024 : ℤ) := by norm_num
    rw [h52, h1024, ← zpow_add₀ (by norm_num : (2 : ℚ) ≠ 0)]
    apply zpow_le_zpow_right₀ (by norm_num)
    omega
  unfold roundMag
  rw [if_neg (not_lt.mpr hge)]

/-- Below half the smallest positive binary64 magnitude, rounding gives 0. -/
lemma roundMag_eq_zero (q : ℚ) (h0 : 0 ≤ q) (hq : q < (2 : ℚ) ^ (-1075 : ℤ)) :
    roundMag q = some 0 := by
  rcases eq_or_lt_of_le h0 with h | hpos
  · rw [← h]
    exact roundMag_zero
  have hlog : Int.log 2 q < -1075 := by
    rw [← Int.lt_zpow_iff_log_lt (by norm_num) hpos]
    exact_mod_cast hq
  have hu : ulpExp q = -1074 := by
    unfold ulpExp
    rw [max_eq_right (by omega)]
    rfl
  have hn : roundHalfEven (q / 2 ^ ulpExp q) = 0 := by
    apply roundHalfEven_eq
    · have : 0 < q / 2 ^ ulpExp q := div_pos hpos (two_zpow_pos _)
      push_cast
      linarith
    · push_cast
      rw [hu, zero_add, div_lt_iff₀ (two_zpow_pos _)]
      have : (1 : ℚ) / 2 * 2 ^ (-1074 : ℤ) = 2 ^ (-1075 : ℤ) := by
        rw [show (-1074 : ℤ) = -1075 + 1 by norm_num, zpow_add₀ (by norm_num : (2 : ℚ) ≠ 0)]
        norm_num
      rw [this]
      exact hq
  unfold roundMag
  rw [hn]
  simp

/-- Rounding in a normal binade `[2 ^ e, 2 ^ (e + 1))` to the integer
multiple `n` of the spacing that is strictly nearest. -/
lemma roundMag_eq_of_near (q : ℚ) (e n : ℤ) (he : -1022 ≤ e)
    (hlo : (2 : ℚ) ^ e ≤ q) (hhi : q < 2 ^ (e + 1))
    (h₁ : (n : ℚ) - 1 / 2 < q / 2 ^ (e - 52)) (h₂ : q / 2 ^ (e - 52) < (n : ℚ) + 1 / 2)
    (hlt : (n : ℚ) * 2 ^ (e - 52) < 2 ^ 1024) :
    roundMag q = some ((n : ℚ) * 2 ^ (e - 52)) := by
  have hu : ulpExp q = e - 52 := by
    rw [ulpExp_eq q e hlo hhi, max_eq_left he]
  unfold roundMag
  rw [hu, roundHalfEven_eq _ n h₁ h₂, if_pos hlt]

/-- Rounding in a normal binade at a tie `k + 1/2` of the spacing: to the
even neighbour. -/
lemma roundMag_eq_of_tie (q : ℚ) (e k : ℤ) (he : -1022 ≤ e)
    (hlo : (2 : ℚ) ^ e ≤ q) (hhi : q < 2 ^ (e + 1))
    (ht : q / 2 ^ (e - 52) = (k : ℚ) + 1 / 2)
    (hlt : (((if k % 2 = 0 then k else k + 1 : ℤ) : ℚ)) * 2 ^ (e - 52) < 2 ^ 1024) :
    roundMag q = some ((((if k % 2 = 0 then k else k + 1 : ℤ) : ℚ)) * 2 ^ (e - 52)) := by
  have hu : ulpExp q = e - 52 := by
    rw [ulpExp_eq q e hlo hhi, max_eq_left he]
  unfold roundMag
  rw [hu, ht, roundHalfEven_tie k, if_pos hlt]

/-- The rounded square root of the exact square of a binary64 magnitude is
that magnitude. -/
lemma sqrtMag_sq (d : ℚ) (hd : Representable d) : sqrtMag (d * d) = d := by
  rcases eq_or_lt_of_le hd.1 with h0 | hpos
  · rw [← h0]
    simp [sqrtMag]
  obtain ⟨-, hAeq⟩ := hd.spec
  have hlo : (2 : ℚ) ^ Int.log 2 d ≤ d := by
    have := Int.zpow_log_le_self (b := 2) (by norm_num) hpos
    exact_mod_cast this
  have hhi : d < (2 : ℚ) ^ (Int.log 2 d + 1) := by
    have := Int.lt_zpow_succ_log_self (b := 2) (by norm_num) d
    exact_mod_cast this
  have hpos2 : 0 < d * d := mul_pos hpos hpos
  -- the logarithm of the square is twice that of `d`, or one more
  have hL1 : 2 * Int.log 2 d ≤ Int.log 2 (d * d) := by
    rw [← Int.zpow_le_iff_le_log (by norm_num) hpos2]
    have h2 : ((2 : ℕ) : ℚ) ^ (2 * Int.log 2 d) = 2 ^ Int.log 2 d * 2 ^ Int.log 2 d := by
      rw [two_mul, zpow_add₀ (by norm_num)]
      norm_num
    rw [h2]
    exact mul_le_mul hlo hlo (two_zpow_pos _).le hpos.le
  have hL2 : Int.log 2 (d * d) < 2 * Int.log 2 d + 2 := by
    rw [← Int.lt_zpow_iff_log_lt (by norm_num) hpos2]
    have h2 : ((2 : ℕ) : ℚ) ^ (2 * Int.log 2 d + 2) =
        2 ^ (Int.log 2 d + 1) * 2 ^ (Int.log 2 d + 1) := by
      rw [← zpow_add₀ (by norm_num)]
      norm_num
      ring_nf
    rw [h2]
    exact mul_lt_mul'' hhi hhi hpos.le hpos.le
  have hv : Int.log 2 (d * d) / 2 - 52 = Int.log 2 d - 52 := by omega
  -- `d` is a natural multiple of `2 ^ (log d - 52)`
  have hN : (0 : ℤ) ≤ roundHalfEven (d / 2 ^ ulpExp d) :=
    le_roundHalfEven _ 0 (by
      push_cast
      exact div_nonneg hpos.le (two_zpow_pos _).le)
  obtain ⟨N, hNeq⟩ := Int.eq_ofNat_of_zero_le hN
  have hule : Int.log 2 d - 52 ≤ ulpExp d := by
    unfold ulpExp
    have := le_max_left (Int.log 2 d) (-1022)
    omega
  obtain ⟨k, hk⟩ := Int.eq_ofNat_of_zero_le (sub_nonneg.mpr hule)
  have hM : d = ((N * 2 ^ k : ℕ) : ℚ) * 2 ^ (Int.log 2 d - 52) := by
    push_cast
    rw [mul_assoc, ← zpow_natCast, ← zpow_add₀ (by norm_num : (2 : ℚ) ≠ 0), ← hk,
      sub_add_cancel]
    rw [hNeq] at hAeq
    exact_mod_cast hAeq.symm
  have hfloor : ⌊4 * (d * d) / (2 ^ (Int.log 2 d - 52)) ^ 2⌋₊ =
      (2 * (N * 2 ^ k)) * (2 * (N * 2 ^ k)) := by
    have hx : 4 * (d * d) / ((2 : ℚ) ^ (Int.log 2 d - 52)) ^ 2 =
        (((2 * (N * 2 ^ k)) * (2 * (N * 2 ^ k)) : ℕ) : ℚ) := by
      rw [div_eq_iff (pow_pos (two_zpow_pos _) 2).ne']
      conv_lhs => rw [hM]
      push_cast
      ring
    rw [hx, Nat.floor_natCast]
  unfold sqrtMag
  rw [hv, hfloor, Nat.sqrt_eq]
  have hhalf : (2 * (N * 2 ^ k) + 1) / 2 = N * 2 ^ k := by omega
  rw [hhalf]
  exact hM.symm

/-! ## Helper lemmas: single operations on given values -/

lemma Double.rounded_of_some (neg : Bool) (q r : ℚ) (h : roundMag q = some r) :
    Double.rounded neg q = ⟨Double.fin neg r, Flags.clear⟩ := by
  unfold Double.rounded
  rw [h]

lemma Double.rounded_of_none (neg : Bool) (q : ℚ) (h : roundMag q = none) :
    Double.rounded neg q = ⟨Double.inf neg, ⟨false, false, true⟩⟩ := by
  unfold Double.rounded
  rw [h]

/-- The value of a product of two given values. -/
lemma mul_val (x y : Double) :
    ((x : Flagged) * (y : Flagged)).val = (Double.mul x y).val := rfl

/-- The value of a quotient of two given values. -/
lemma div_val (x y : Double) :
    ((x : Flagged) / (y : Flagged)).val = (Double.div x y).val := rfl

/-- The value of a sum of two given values. -/
lemma add_val (x y : Double) :
    ((x : Flagged) + (y : Flagged)).val = (Double.add x y).val := rfl

/-- The value of a difference of two given values. -/
lemma sub_val (x y : Double) :
    ((x : Flagged) - (y : Flagged)).val = (Double.sub x y).val := rfl

/-- A product of finite values whose rounding is known. -/
lemma Double.mul_fin (s t : Bool) (p q r : ℚ) (h : roundMag (p * q) = some r) :
    Double.mul (Double.fin s p) (Double.fin t q) = ⟨Double.fin (xor s t) r, Flags.clear⟩ :=
  Double.rounded_of_some _ _ _ h

/-- A quotient of finite values, the divisor not zero, whose rounding is
known. -/
lemma Double.div_fin (s t : Bool) (p q r : ℚ) (hq : q ≠ 0) (h : roundMag (p / q) = some r) :
    Double.div (Double.fin s p) (Double.fin t q) = ⟨Double.fin (xor s t) r, Flags.clear⟩ := by
  simp only [Double.div]
  rw [if_neg hq]
  exact Double.rounded_of_some _ _ _ h

/-- A square of a finite value whose rounding is known. -/
lemma Double.pow_two_fin (s : Bool) (q r : ℚ) (h : roundMag (q ^ 2) = some r) :
    Double.pow (Double.fin s q) 2 = ⟨Double.fin false r, Flags.clear⟩ := by
  simp only [Double.pow]
  rw [Double.rounded_of_some _ _ _ h]
  simp

/-- An exact product of finite values. -/
lemma Double.mul_exact (s t : Bool) (p q : ℚ) (h : Representable (p * q)) :
    Double.mul (Double.fin s p) (Double.fin t q) = ⟨Double.fin (xor s t) (p * q), Flags.clear⟩ :=
  Double.mul_fin s t p q _ h.2

lemma Double.isZero_zero : Double.zero.isZero = true := by
  simp [Double.isZero, Double.zero]

lemma Double.isZero_fin_of_ne (s : Bool) (q : ℚ) (h : q ≠ 0) :
    (Double.fin s q).isZero = false := by
  simp [Double.isZero, h]

/-- A natural number below `2 ^ 53` is a binary64 magnitude. -/
lemma representable_natCast (n : ℕ) (hn : n < 2 ^ 53) : Representable (n : ℚ) := by
  have h := representable_of_scaled n 0 hn (by norm_num) (by
    rw [zpow_zero, mul_one]
    have : (n : ℚ) < 2 ^ 53 := by exact_mod_cast hn
    exact lt_trans this (by norm_num))
  rwa [zpow_zero, mul_one] at h

/-! ## Helper lemmas: the branches of the binary64 evaluators -/

lemma newton_second_law_double_force (f m a : Double) (hf : f.isZero = true) :
    newton_second_law_double f m a = (m : Flagged) * a := by
  simp [newton_second_law_double, hf]

lemma newton_second_law_double_mass (f m a : Double) (hf : f.isZero = false)
    (hm : m.isZero = true) : newton_second_law_double f m a = (f : Flagged) / a := by
  simp [newton_second_law_double, hf, hm]

lemma newton_second_law_double_acceleration (f m a : Double) (hf : f.isZero = false)
    (hm : m.isZero = false) (ha : a.isZero = true) :
    newton_second_law_double f m a = (f : Flagged) / m := by
  simp [newton_second_law_double, hf, hm, ha]

/-! ## Helper lemmas: values of composed operations -/

lemma Flagged.val_mul_fin {a b : Flagged} {s t : Bool} {p q : ℚ} (r : ℚ)
    (ha : a.val = Double.fin s p) (hb : b.val = Double.fin t q)
    (h : roundMag (p * q) = some r) : (a * b).val = Double.fin (xor s t) r := by
  show (Double.mul a.val b.val).val = _
  rw [ha, hb, Double.mul_fin s t p q r h]

lemma Flagged.val_div_fin {a b : Flagged} {s t : Bool} {p q : ℚ} (r : ℚ)
    (ha : a.val = Double.fin s p) (hb : b.val = Double.fin t q) (hq : q ≠ 0)
    (h : roundMag (p / q) = some r) : (a / b).val = Double.fin (xor s t) r := by
  show (Double.div a.val b.val).val = _
  rw [ha, hb, Double.div_fin s t p q r hq h]

lemma Flagged.val_pow_two_fin {a : Flagged} {s : Bool} {q : ℚ} (r : ℚ)
    (ha : a.val = Double.fin s q) (h : roundMag (q ^ 2) = some r) :
    (Flagged.pow a 2).val = Double.fin false r := by
  show (Double.pow a.val 2).val = _
  rw [ha, Double.pow_two_fin s q r h]

lemma Flagged.val_sqrt_fin {a : Flagged} {q : ℚ} (ha : a.val = Double.fin false q) :
    (Flagged.sqrt a).val = Double.fin false (sqrtMag q) := by
  show (Double.sqrt a.val).val = _
  rw [ha]
  simp [Double.sqrt, Flagged.pure]

/-! ## Helper lemmas: the branches of the other binary64 evaluators -/

lemma ideal_gas_law_double_pressure (P V n R T : Double) (hP : P.isZero = true) :
    ideal_gas_law_double P V n R T = ((n : Flagged) * R * T) / V := by
  simp [ideal_gas_law_double, hP]

lemma ideal_gas_law_double_volume (P V n R T : Double) (hP : P.isZero = false)
    (hV : V.isZero = true) :
    ideal_gas_law_double P V n R T = ((n : Flagged) * R * T) / P := by
  simp [ideal_gas_law_double, hP, hV]

lemma ideal_gas_law_double_moles (P V n R T : Double) (hP : P.isZero = false)
    (hV : V.isZero = false) (hn : n.isZero = true) :
    ideal_gas_law_double P V n R T = ((P : Flagged) * V) / ((R : Flagged) * T) := by
  simp [ideal_gas_law_double, hP, hV, hn]

lemma ideal_gas_law_double_gas_constant (P V n R T : Double) (hP : P.isZero = false)
    (hV : V.isZero = false) (hn : n.isZero = false) (hR : R.isZero = true) :
    ideal_gas_law_double P V n R T = ((P : Flagged) * V) / ((n : Flagged) * T) := by
  simp [ideal_gas_law_double, hP, hV, hn, hR]

lemma ideal_gas_law_double_temperature (P V n R T : Double) (hP : P.isZero = false)
    (hV : V.isZero = false) (hn : n.isZero = false) (hR : R.isZero = false)
    (hT : T.isZero = true) :
    ideal_gas_law_double P V n R T = ((P : Flagged) * V) / ((n : Flagged) * R) := by
  simp [ideal_gas_law_double, hP, hV, hn, hR, hT]

lemma coulombs_law_double_force (F q₁ q₂ d : Double) (hF : F.isZero = true) :
    coulombs_law_double F q₁ q₂ d = ((q₁ : Flagged) * q₂) / Flagged.pow d 2 := by
  simp [coulombs_law_double, hF]

lemma coulombs_law_double_charge_one (F q₁ q₂ d : Double) (hF : F.isZero = false)
    (h₁ : q₁.isZero = true) :
    coulombs_law_double F q₁ q₂ d = (F : Flagged) * Flagged.pow d 2 / q₂ := by
  simp [coulombs_law_double, hF, h₁]

lemma coulombs_law_double_charge_two (F q₁ q₂ d : Double) (hF : F.isZero = false)
    (h₁ : q₁.isZero = false) (h₂ : q₂.isZero = true) :
    coulombs_law_double F q₁ q₂ d = (F : Flagged) * Flagged.pow d 2 / q₁ := by
  simp [coulombs_law_double, hF, h₁, h₂]

lemma coulombs_law_double_distance (F q₁ q₂ d : Double) (hF : F.isZero = false)
    (h₁ : q₁.isZero = false) (h₂ : q₂.isZero = false) (hd : d.isZero = true) :
    coulombs_law_double F q₁ q₂ d = Flagged.sqrt (((q₁ : Flagged) * q₂) / F) := by
  simp [coulombs_law_double, hF, h₁, h₂, hd]

/-- The rounded square root of a magnitude in `[4 ^ e, 4 ^ (e + 1))` is the
multiple `n` of the spacing `2 ^ (e - 52)` when the root lies between
`n - 1/2` and `n + 1/2` spacings. -/
lemma sqrtMag_eq (q : ℚ) (e : ℤ) (n : ℕ) (hn : 1 ≤ n)
    (hlo : (2 : ℚ) ^ (2 * e) ≤ q) (hhi : q < 2 ^ (2 * e + 2))
    (h₁ : (((2 * n - 1) * (2 * n - 1) : ℕ) : ℚ) ≤ 4 * q / (2 ^ (e - 52)) ^ 2)
    (h₂ : 4 * q / (2 ^ (e - 52)) ^ 2 < (((2 * n + 1) * (2 * n + 1) : ℕ) : ℚ)) :
    sqrtMag q = (n : ℚ) * 2 ^ (e - 52) := by
  have hq : 0 < q := lt_of_lt_of_le (two_zpow_pos _) hlo
  have hL1 : 2 * e ≤ Int.log 2 q := by
    rw [← Int.zpow_le_iff_le_log (by norm_num) hq]
    exact_mod_cast hlo
  have hL2 : Int.log 2 q < 2 * e + 2 := by
    rw [← Int.lt_zpow_iff_log_lt (by norm_num) hq]
    exact_mod_cast hhi
  have hv : Int.log 2 q / 2 - 52 = e - 52 := by omega
  have hX : (0 : ℚ) ≤ 4 * q / (2 ^ (e - 52)) ^ 2 :=
    div_nonneg (by linarith) (pow_pos (two_zpow_pos _) 2).le
  have hs1 : 2 * n - 1 ≤ Nat.sqrt ⌊4 * q / ((2 : ℚ) ^ (e - 52)) ^ 2⌋₊ := by
    rw [Nat.le_sqrt]
    exact Nat.le_floor h₁
  have hs2 : Nat.sqrt ⌊4 * q / ((2 : ℚ) ^ (e - 52)) ^ 2⌋₊ < 2 * n + 1 := by
    rw [Nat.sqrt_lt]
    exact (Nat.floor_lt hX).mpr h₂
  unfold sqrtMag
  rw [hv]
  have : (Nat.sqrt ⌊4 * q / ((2 : ℚ) ^ (e - 52)) ^ 2⌋₊ + 1) / 2 = n := by omega
  rw [this]

/-! ## Helper lemmas: sums and differences -/

lemma signedMag_neg (s : Bool) (q : ℚ) : signedMag (!s) q = -signedMag s q := by
  cases s <;> simp [signedMag]

lemma signedMag_abs (x : ℚ) : signedMag (decide (x < 0)) |x| = x := by
  unfold signedMag
  rcases lt_or_le x 0 with h | h
  · simp [h, abs_of_neg h]
  · simp [not_lt.mpr h, abs_of_nonneg h]

lemma signedMag_lt_zero (s : Bool) (q : ℚ) (hq : 0 < q) :
    decide (signedMag s q < 0) = s := by
  cases s
  · simp [signedMag, hq.le]
  · simp [signedMag, hq]

lemma abs_signedMag (s : Bool) (q : ℚ) (hq : 0 ≤ q) : |signedMag s q| = q := by
  cases s
  · simp [signedMag, abs_of_nonneg hq]
  · simp [signedMag, abs_of_nonneg hq]

lemma signedMag_ne_zero (s : Bool) (q : ℚ) (hq : q ≠ 0) : signedMag s q ≠ 0 := by
  cases s <;> simp [signedMag, hq]

/-- A sum of finite values that is exactly zero. -/
lemma Double.add_fin_zero (s t : Bool) (p q : ℚ) (h : signedMag s p + signedMag t q = 0) :
    Double.add (Double.fin s p) (Double.fin t q) = Flagged.pure (Double.fin (s && t) 0) := by
  simp only [Double.add]
  rw [if_pos h]

/-- A non-zero sum of finite values whose rounding is known. -/
lemma Double.add_fin_ne (s t : Bool) (p q r : ℚ) (h : signedMag s p + signedMag t q ≠ 0)
    (hr : roundMag |signedMag s p + signedMag t q| = some r) :
    Double.add (Double.fin s p) (Double.fin t q) =
      ⟨Double.fin (decide (signedMag s p + signedMag t q < 0)) r, Flags.clear⟩ := by
  simp only [Double.add]
  rw [if_neg h]
  exact Double.rounded_of_some _ _ _ hr

/-- Adding a finite binary64 value to a zero gives that value when it is not
zero itself. -/
lemma Double.zero_add_fin (s : Bool) (q : ℚ) (hq : Representable q) (h0 : q ≠ 0) :
    (Double.add Double.zero (Double.fin s q)).val = Double.fin s q := by
  have hpos : 0 < q := lt_of_le_of_ne hq.1 (Ne.symm h0)
  have hx : signedMag false 0 + signedMag s q = signedMag s q := by
    simp [signedMag]
  unfold Double.zero
  rw [Double.add_fin_ne false s 0 q q (by rw [hx]; exact signedMag_ne_zero s q h0)
    (by rw [hx, abs_signedMag s q hq.1]; exact hq.2), hx, signedMag_lt_zero s q hpos]

lemma work_energy_theorem_double_work (W K P : Double) (hW : W.isZero = true) :
    work_energy_theorem_double W K P = (K : Flagged) + P := by
  simp [work_energy_theorem_double, hW]

lemma work_energy_theorem_double_kinetic (W K P : Double) (hW : W.isZero = false)
    (hK : K.isZero = true) : work_energy_theorem_double W K P = (W : Flagged) - P := by
  simp [work_energy_theorem_double, hW, hK]

/-! ## Helper lemmas: flags and finiteness -/

lemma Flags.merge_eq_clear (a b : Flags) :
    a.merge b = Flags.clear ↔ a = Flags.clear ∧ b = Flags.clear := by
  rcases a with ⟨a1, a2, a3⟩
  rcases b with ⟨b1, b2, b3⟩
  cases a1 <;> cases a2 <;> cases a3 <;> cases b1 <;> cases b2 <;> cases b3 <;>
    simp [Flags.merge, Flags.clear]

/-- A rounded result is finite, or the overflow flag is raised. -/
lemma Double.rounded_cases (neg : Bool) (q : ℚ) :
    (∃ r, roundMag q = some r ∧ Double.rounded neg q = ⟨Double.fin neg r, Flags.clear⟩) ∨
    (Double.rounded neg q).flags.overflow = true := by
  unfold Double.rounded
  cases h : roundMag q with
  | none => exact Or.inr rfl
  | some r => exact Or.inl ⟨r, rfl, rfl⟩

lemma Double.isFinite_iff (x : Double) : x.isFinite = true ↔ ∃ s q, x = Double.fin s q := by
  cases x <;> simp [Double.isFinite]

lemma Flagged.safe_pure (x : Double) (hx : x.isFinite = true) : (x : Flagged).Safe :=
  fun _ => hx

lemma Flagged.safe_lift₂ (op : Double → Double → Flagged)
    (hop : ∀ x y : Double, x.isFinite = true → y.isFinite = true →
      (op x y).flags = Flags.clear → (op x y).val.isFinite = true)
    (a b : Flagged) (ha : a.Safe) (hb : b.Safe) : (Flagged.lift₂ op a b).Safe := by
  intro h
  have h' : (a.flags.merge b.flags).merge (op a.val b.val).flags = Flags.clear := h
  rw [Flags.merge_eq_clear, Flags.merge_eq_clear] at h'
  exact hop a.val b.val (ha h'.1.1) (hb h'.1.2) h'.2

lemma Flagged.safe_lift₁ (op : Double → Flagged)
    (hop : ∀ x : Double, x.isFinite = true →
      (op x).flags = Flags.clear → (op x).val.isFinite = true)
    (a : Flagged) (ha : a.Safe) : (Flagged.lift₁ op a).Safe := by
  intro h
  have h' : a.flags.merge (op a.val).flags = Flags.clear := h
  rw [Flags.merge_eq_clear] at h'
  exact hop a.val (ha h'.1) h'.2

lemma Double.rounded_safe (neg : Bool) (q : ℚ)
    (h : (Double.rounded neg q).flags = Flags.clear) :
    (Double.rounded neg q).val.isFinite = true := by
  rcases Double.rounded_cases neg q with ⟨r, -, hr⟩ | ho
  · rw [hr]
    rfl
  · rw [h] at ho
    exact absurd ho (by decide)

lemma Double.mul_safe (x y : Double) (hx : x.isFinite = true) (hy : y.isFinite = true)
    (h : (Double.mul x y).flags = Flags.clear) : (Double.mul x y).val.isFinite = true := by
  obtain ⟨s, p, rfl⟩ := (Double.isFinite_iff x).mp hx
  obtain ⟨t, q, rfl⟩ := (Double.isFinite_iff y).mp hy
  exact Double.rounded_safe _ _ h

lemma Double.div_safe (x y : Double) (hx : x.isFinite = true) (hy : y.isFinite = true)
    (h : (Double.div x y).flags = Flags.clear) : (Double.div x y).val.isFinite = true := by
  obtain ⟨s, p, rfl⟩ := (Double.isFinite_iff x).mp hx
  obtain ⟨t, q, rfl⟩ := (Double.isFinite_iff y).mp hy
  simp only [Double.div] at h ⊢
  by_cases hq : q = 0
  · rw [if_pos hq] at h
    exact absurd (congrArg Flags.divZero h) (by simp [Flags.clear])
  · rw [if_neg hq] at h ⊢
    exact Double.rounded_safe _ _ h

lemma Double.add_safe (x y : Double) (hx : x.isFinite = true) (hy : y.isFinite = true)
    (h : (Double.add x y).flags = Flags.clear) : (Double.add x y).val.isFinite = true := by
  obtain ⟨s, p, rfl⟩ := (Double.isFinite_iff x).mp hx
  obtain ⟨t, q, rfl⟩ := (Double.isFinite_iff y).mp hy
  simp only [Double.add] at h ⊢
  split_ifs at h ⊢ with hq
  · rfl
  · exact Double.rounded_safe _ _ h

lemma Double.sub_safe (x y : Double) (hx : x.isFinite = true) (hy : y.isFinite = true)
    (h : (Double.sub x y).flags = Flags.clear) : (Double.sub x y).val.isFinite = true := by
  have hy' : (Double.neg y).isFinite = true := by
    cases y <;> simp_all [Double.neg, Double.isFinite]
  exact Double.add_safe x (Double.neg y) hx hy' h

lemma Double.pow_safe (n : ℕ) (x : Double) (hx : x.isFinite = true)
    (h : (Double.pow x n).flags = Flags.clear) : (Double.pow x n).val.isFinite = true := by
  obtain ⟨s, p, rfl⟩ := (Double.isFinite_iff x).mp hx
  exact Double.rounded_safe _ _ h

lemma Double.sqrt_safe (x : Double) (hx : x.isFinite = true)
    (h : (Double.sqrt x).flags = Flags.clear) : (Double.sqrt x).val.isFinite = true := by
  obtain ⟨s, p, rfl⟩ := (Double.isFinite_iff x).mp hx
  simp only [Double.sqrt] at h ⊢
  split_ifs at h ⊢ with hq
  · exact absurd (congrArg Flags.sqrtNeg h) (by simp [Flags.clear])
  · rfl

lemma Flagged.safe_mul (a b : Flagged) (ha : a.Safe) (hb : b.Safe) : (a * b).Safe :=
  Flagged.safe_lift₂ Double.mul Double.mul_safe a b ha hb

lemma Flagged.safe_div (a b : Flagged) (ha : a.Safe) (hb : b.Safe) : (a / b).Safe :=
  Flagged.safe_lift₂ Double.div Double.div_safe a b ha hb

lemma Flagged.safe_add (a b : Flagged) (ha : a.Safe) (hb : b.Safe) : (a + b).Safe :=
  Flagged.safe_lift₂ Double.add Double.add_safe a b ha hb

lemma Flagged.safe_sub (a b : Flagged) (ha : a.Safe) (hb : b.Safe) : (a - b).Safe :=
  Flagged.safe_lift₂ Double.sub Double.sub_safe a b ha hb

lemma Flagged.safe_pow (a : Flagged) (n : ℕ) (ha : a.Safe) : (Flagged.pow a n).Safe :=
  Flagged.safe_lift₁ _ (Double.pow_safe n) a ha

lemma Flagged.safe_sqrt (a : Flagged) (ha : a.Safe) : (Flagged.sqrt a).Safe :=
  Flagged.safe_lift₁ _ Double.sqrt_safe a ha

lemma Flagged.safe_map (f : Double → Double)
    (hf : ∀ x : Double, x.isFinite = true → (f x).isFinite = true)
    (a : Flagged) (ha : a.Safe) : (Flagged.map f a).Safe :=
  fun h => hf a.val (ha h)

lemma Flagged.safe_zero : (Double.zero : Flagged).Safe := fun _ => rfl

lemma Flagged.safe_half : (Double.half : Flagged).Safe := fun _ => rfl

lemma mass_energy_equivalence_double_energy (m c : Double) (hm : m.isZero = false)
    (hc : c.isZero = false) :
    mass_energy_equivalence_double m c = (m : Flagged) * Flagged.pow c 2 := by
  simp [mass_energy_equivalence_double, hm, hc]

/-- A finite non-zero value times an infinity. -/
lemma Double.mul_fin_inf (s t : Bool) (p : ℚ) (hp : p ≠ 0) :
    Double.mul (Double.fin s p) (Double.inf t) = Flagged.pure (Double.inf (xor s t)) := by
  simp only [Double.mul]
  rw [if_neg hp]

/-- The energy branch when the square of the speed overflows. -/
lemma mass_energy_equivalence_double_of_overflow (s t : Bool) (m c : ℚ) (hm : m ≠ 0)
    (hc : c ≠ 0) (h : (2 : ℚ) ^ (1024 : ℤ) ≤ c ^ 2) :
    mass_energy_equivalence_double (Double.fin s m) (Double.fin t c) =
      ⟨Double.inf s, ⟨false, false, true⟩⟩ := by
  have hpow : Double.pow (Double.fin t c) 2 = ⟨Double.inf false, ⟨false, false, true⟩⟩ := by
    simp only [Double.pow]
    rw [Double.rounded_of_none _ _ (roundMag_eq_none _ h)]
    simp
  rw [mass_energy_equivalence_double_energy _ _ (Double.isZero_fin_of_ne _ _ hm)
    (Double.isZero_fin_of_ne _ _ hc)]
  show Flagged.lift₂ Double.mul (Flagged.pure _) (Flagged.lift₁ _ (Flagged.pure _)) = _
  unfold Flagged.lift₂ Flagged.lift₁ Flagged.pure
  simp only [hpow, Double.mul_fin_inf s false m hm]
  simp [Flagged.pure, Flags.merge, Flags.clear]

/-! ## Helper lemmas: the division-by-zero flag -/

lemma Double.rounded_divZero (neg : Bool) (q : ℚ) :
    (Double.rounded neg q).flags.divZero = false := by
  unfold Double.rounded
  cases roundMag q <;> rfl

lemma Double.mul_divZero (x y : Double) : (Double.mul x y).flags.divZero = false := by
  cases x <;> cases y <;> simp only [Double.mul, Double.rounded_divZero] <;>
    (try split_ifs) <;> rfl

lemma Double.pow_divZero (x : Double) (n : ℕ) : (Double.pow x n).flags.divZero = false := by
  cases x <;> simp only [Double.pow, Double.rounded_divZero] <;> (try split_ifs) <;> rfl

lemma Double.sqrt_divZero (x : Double) : (Double.sqrt x).flags.divZero = false := by
  cases x <;> simp only [Double.sqrt] <;> (try split_ifs) <;> rfl

lemma Double.div_divZero (x y : Double) (hy : y.isZero = false) :
    (Double.div x y).flags.divZero = false := by
  cases y with
  | fin t q =>
    have hq : q ≠ 0 := by simpa [Double.isZero] using hy
    cases x <;> simp [Double.div, hq, Double.rounded_divZero]
  | inf t => cases x <;> rfl
  | nan => cases x <;> rfl

lemma Flagged.divZero_mul (a b : Flagged) (ha : a.flags.divZero = false)
    (hb : b.flags.divZero = false) : (a * b).flags.divZero = false := by
  show ((a.flags.divZero || b.flags.divZero) || (Double.mul a.val b.val).flags.divZero) = false
  rw [ha, hb, Double.mul_divZero]
  rfl

lemma Flagged.divZero_div (a b : Flagged) (ha : a.flags.divZero = false)
    (hb : b.flags.divZero = false) (hz : b.val.isZero = false) :
    (a / b).flags.divZero = false := by
  show ((a.flags.divZero || b.flags.divZero) || (Double.div a.val b.val).flags.divZero) = false
  rw [ha, hb, Double.div_divZero _ _ hz]
  rfl

lemma Flagged.divZero_pow (a : Flagged) (n : ℕ) (ha : a.flags.divZero = false) :
    (Flagged.pow a n).flags.divZero = false := by
  show (a.flags.divZero || (Double.pow a.val n).flags.divZero) = false
  rw [ha, Double.pow_divZero]
  rfl

lemma Flagged.divZero_sqrt (a : Flagged) (ha : a.flags.divZero = false) :
    (Flagged.sqrt a).flags.divZero = false := by
  show (a.flags.divZero || (Double.sqrt a.val).flags.divZero) = false
  rw [ha, Double.sqrt_divZero]
  rfl

/-- From the smallest positive binary64 magnitude on, a rounded result is
not zero. -/
lemma Double.rounded_isZero (neg : Bool) (q : ℚ) (hq : (2 : ℚ) ^ (-1074 : ℤ) ≤ q) :
    (Double.rounded neg q).val.isZero = false := by
  unfold Double.rounded
  cases h : roundMag q with
  | none => rfl
  | some r => exact Double.isZero_fin_of_ne _ _ (roundMag_pos q r hq h).ne'

lemma ohms_law_double_voltage (v r i : Double) (hv : v.isZero = true) :
    ohms_law_double v r i = (r : Flagged) * i := by
  simp [ohms_law_double, hv]

lemma ohms_law_double_resistance (v r i : Double) (hv : v.isZero = false)
    (hr : r.isZero = true) : ohms_law_double v r i = (v : Flagged) / i := by
  simp [ohms_law_double, hv, hr]

lemma ohms_law_double_current (v r i : Double) (hv : v.isZero = false)
    (hr : r.isZero = false) (hi : i.isZero = true) :
    ohms_law_double v r i = (v : Flagged) / r := by
  simp [ohms_law_double, hv, hr, hi]

lemma Double.div_divZero_of_isZero (x y : Double) (hy : y.isZero = true) :
    (Double.div x y).flags.divZero = true := by
  cases y with
  | fin t q =>
    have hq : q = 0 := by simpa [Double.isZero] using hy
    cases x <;> simp [Double.div, hq]
  | inf t => simp [Double.isZero] at hy
  | nan => simp [Double.isZero] at hy

lemma Flagged.divZero_div_of_isZero (a b : Flagged) (hz : b.val.isZero = true) :
    (a / b).flags.divZero = true := by
  show ((a.flags.divZero || b.flags.divZero) || (Double.div a.val b.val).flags.divZero) = true
  rw [Double.div_divZero_of_isZero _ _ hz]
  simp

/-- The force solve when the square of the distance underflows to 0. -/
lemma coulombs_law_double_of_underflow (s₁ s₂ sd : Bool) (q₁ q₂ d : ℚ)
    (h₁ : q₁ ≠ 0) (h₂ : q₂ ≠ 0) (hd : d ≠ 0) (h : d ^ 2 < (2 : ℚ) ^ (-1075 : ℤ)) :
    exactlyOneZero_double
      [Double.zero, Double.fin s₁ q₁, Double.fin s₂ q₂, Double.fin sd d] ∧
    (Double.pow (Double.fin sd d) 2).val = Double.fin false 0 ∧
    (coulombs_law_double Double.zero (Double.fin s₁ q₁) (Double.fin s₂ q₂)
      (Double.fin sd d)).flags.divZero = true := by
  have hpow : Double.pow (Double.fin sd d) 2 = ⟨Double.fin false 0, Flags.clear⟩ :=
    Double.pow_two_fin _ _ _ (roundMag_eq_zero _ (sq_nonneg d) h)
  refine ⟨?_, ?_, ?_⟩
  · simp [exactlyOneZero_double, Double.isZero, Double.zero, List.countP_cons, h₁, h₂, hd]
  · rw [hpow]
  · rw [coulombs_law_double_force _ _ _ _ Double.isZero_zero]
    apply Flagged.divZero_div_of_isZero
    show (Double.pow (Double.fin sd d) 2).val.isZero = true
    rw [hpow]
    rfl

/-! ## Helper lemmas: the overflow flag -/

lemma Flagged.lift₂_overflow (op : Double → Double → Flagged) (a b : Flagged)
    (h : (Flagged.lift₂ op a b).flags.overflow = false) :
    a.flags.overflow = false ∧ b.flags.overflow = false ∧
      (op a.val b.val).flags.overflow = false := by
  have h' : ((a.flags.overflow || b.flags.overflow) ||
      (op a.val b.val).flags.overflow) = false := h
  simp only [Bool.or_eq_false_iff] at h'
  exact ⟨h'.1.1, h'.1.2, h'.2⟩

lemma Flagged.lift₁_overflow (op : Double → Flagged) (a : Flagged)
    (h : (Flagged.lift₁ op a).flags.overflow = false) :
    a.flags.overflow = false ∧ (op a.val).flags.overflow = false := by
  have h' : (a.flags.overflow || (op a.val).flags.overflow) = false := h
  simp only [Bool.or_eq_false_iff] at h'
  exact h'

/-- A rounded result without overflow is the finite rounded value. -/
lemma Double.rounded_of_no_overflow (neg : Bool) (q : ℚ)
    (h : (Double.rounded neg q).flags.overflow = false) :
    ∃ r, roundMag q = some r ∧ Double.rounded neg q = ⟨Double.fin neg r, Flags.clear⟩ := by
  rcases Double.rounded_cases neg q with hr | ho
  · exact hr
  · rw [h] at ho
    exact absurd ho (by decide)

/-- A product of finite values without overflow. -/
lemma Flagged.fin_mul {a b : Flagged} {s t : Bool} {p q : ℚ}
    (ha : a.val = Double.fin s p) (hb : b.val = Double.fin t q)
    (h : (a * b).flags.overflow = false) :
    ∃ r, roundMag (p * q) = some r ∧ (a * b).val = Double.fin (xor s t) r := by
  have h' := (Flagged.lift₂_overflow Double.mul a b h).2.2
  rw [ha, hb] at h'
  obtain ⟨r, hr, -⟩ := Double.rounded_of_no_overflow _ _ h'
  exact ⟨r, hr, Flagged.val_mul_fin r ha hb hr⟩

/-- A square of a finite value without overflow. -/
lemma Flagged.fin_pow_two {a : Flagged} {s : Bool} {q : ℚ}
    (ha : a.val = Double.fin s q) (h : (Flagged.pow a 2).flags.overflow = false) :
    ∃ r, roundMag (q ^ 2) = some r ∧ (Flagged.pow a 2).val = Double.fin false r := by
  have h' := (Flagged.lift₁_overflow _ a h).2
  rw [ha] at h'
  obtain ⟨r, hr, -⟩ := Double.rounded_of_no_overflow _ _ h'
  exact ⟨r, hr, Flagged.val_pow_two_fin r ha hr⟩

/-- A sum of finite values without overflow is finite. -/
lemma Flagged.fin_add {a b : Flagged} {s t : Bool} {p q : ℚ}
    (ha : a.val = Double.fin s p) (hb : b.val = Double.fin t q)
    (h : (a + b).flags.overflow = false) :
    ∃ s' r, (a + b).val = Double.fin s' r := by
  have h' := (Flagged.lift₂_overflow Double.add a b h).2.2
  show ∃ s' r, (Double.add a.val b.val).val = Double.fin s' r
  rw [ha, hb] at h' ⊢
  simp only [Double.add] at h' ⊢
  by_cases hx : signedMag s p + signedMag t q = 0
  · rw [if_pos hx]
    exact ⟨_, _, rfl⟩
  · rw [if_neg hx] at h' ⊢
    obtain ⟨r, -, hr⟩ := Double.rounded_of_no_overflow _ _ h'
    rw [hr]
    exact ⟨_, _, rfl⟩

lemma Double.eq_self_fin (s : Bool) (r : ℚ) :
    Double.eq (Double.fin s r) (Double.fin s r) = true := by
  simp [Double.eq]

/-- Adding a zero on the left does not change a binary64 value, up to the
sign of a zero result. -/
lemma Double.eq_zero_add (s₀ s : Bool) (r : ℚ) (hr : Representable r) :
    Double.eq (Double.fin s r) (Double.add (Double.fin s₀ 0) (Double.fin s r)).val = true := by
  have hs0 : signedMag s₀ 0 = 0 := by cases s₀ <;> simp [signedMag]
  by_cases h0 : r = 0
  · subst h0
    have hs : signedMag s 0 = 0 := by cases s <;> simp [signedMag]
    rw [Double.add_fin_zero s₀ s 0 0 (by rw [hs0, hs, add_zero])]
    simp [Double.eq, Flagged.pure, signedMag]
  · have hpos : 0 < r := lt_of_le_of_ne hr.1 (Ne.symm h0)
    have hx : signedMag s₀ 0 + signedMag s r = signedMag s r := by rw [hs0, zero_add]
    rw [Double.add_fin_ne s₀ s 0 r r (by rw [hx]; exact signedMag_ne_zero s r h0)
      (by rw [hx, abs_signedMag s r hr.1]; exact hr.2), hx, signedMag_lt_zero s r hpos]
    exact Double.eq_self_fin s r

/-- Adding a zero on the right does not change a binary64 value, up to the
sign of a zero result. -/
lemma Double.eq_add_zero (s s₀ : Bool) (r : ℚ) (hr : Representable r) :
    Double.eq (Double.fin s r) (Double.add (Double.fin s r) (Double.fin s₀ 0)).val = true := by
  have hs0 : signedMag s₀ 0 = 0 := by cases s₀ <;> simp [signedMag]
  by_cases h0 : r = 0
  · subst h0
    have hs : signedMag s 0 = 0 := by cases s <;> simp [signedMag]
    rw [Double.add_fin_zero s s₀ 0 0 (by rw [hs0, hs, add_zero])]
    simp [Double.eq, Flagged.pure, signedMag]
  · have hpos : 0 < r := lt_of_le_of_ne hr.1 (Ne.symm h0)
    have hx : signedMag s r + signedMag s₀ 0 = signedMag s r := by rw [hs0, add_zero]
    rw [Double.add_fin_ne s s₀ r 0 r (by rw [hx]; exact signedMag_ne_zero s r h0)
      (by rw [hx, abs_signedMag s r hr.1]; exact hr.2), hx, signedMag_lt_zero s r hpos]
    exact Double.eq_self_fin s r

/-- The rounding of 0 is 0. -/
lemma roundMag_zero_eq (r : ℚ) (h : roundMag 0 = some r) : r = 0 := by
  rw [roundMag_zero] at h
  exact (Option.some.inj h).symm

lemma projectile_motion_double_velocity (v t a : Double) (hv : v.isZero = true) :
    projectile_motion_double v t a =
      (Double.half : Flagged) * a * Flagged.pow t 2 := by
  simp [projectile_motion_double, hv]

lemma projectile_motion_double_time (v t a : Double) (hv : v.isZero = false)
    (ht : t.isZero = true) :
    projectile_motion_double v t a = displacement_formula_double v t a := by
  simp [projectile_motion_double, displacement_formula_double, hv, ht]

lemma projectile_motion_double_acceleration (v t a : Double) (hv : v.isZero = false)
    (ht : t.isZero = false) (ha : a.isZero = true) :
    projectile_motion_double v t a = (v : Flagged) * t := by
  simp [projectile_motion_double, hv, ht, ha]

lemma projectile_motion_double_all_supplied (v t a : Double) (hv : v.isZero = false)
    (ht : t.isZero = false) (ha : a.isZero = false) :
    projectile_motion_double v t a = (Double.zero : Flagged) := by
  simp [projectile_motion_double, hv, ht, ha]

/-! ## Helper lemmas: values and flags of flag-free operations -/

lemma Flagged.mul_eq_fin {a b : Flagged} {s t : Bool} {p q : ℚ} (r : ℚ)
    (ha : a = ⟨Double.fin s p, Flags.clear⟩) (hb : b = ⟨Double.fin t q, Flags.clear⟩)
    (h : roundMag (p * q) = some r) : a * b = ⟨Double.fin (xor s t) r, Flags.clear⟩ := by
  subst ha hb
  show Flagged.lift₂ Double.mul _ _ = _
  unfold Flagged.lift₂
  simp only [Double.mul_fin _ _ _ _ _ h]
  rfl

lemma Flagged.pow_two_eq_fin {a : Flagged} {s : Bool} {q : ℚ} (r : ℚ)
    (ha : a = ⟨Double.fin s q, Flags.clear⟩) (h : roundMag (q ^ 2) = some r) :
    Flagged.pow a 2 = ⟨Double.fin false r, Flags.clear⟩ := by
  subst ha
  show Flagged.lift₁ _ _ = _
  unfold Flagged.lift₁
  simp only [Double.pow_two_fin _ _ _ h]
  rfl

lemma Flagged.add_eq_fin {a b : Flagged} {s t : Bool} {p q : ℚ} (r : ℚ)
    (ha : a = ⟨Double.fin s p, Flags.clear⟩) (hb : b = ⟨Double.fin t q, Flags.clear⟩)
    (hx : signedMag s p + signedMag t q ≠ 0)
    (h : roundMag |signedMag s p + signedMag t q| = some r) :
    a + b = ⟨Double.fin (decide (signedMag s p + signedMag t q < 0)) r, Flags.clear⟩ := by
  subst ha hb
  show Flagged.lift₂ Double.add _ _ = _
  unfold Flagged.lift₂
  simp only [Double.add_fin_ne _ _ _ _ _ hx h]
  rfl

lemma simple_harmonic_motion_double_amplitude (sin : Double → Double) (A w t p : Double)
    (hA : A.isZero = true) :
    simple_harmonic_motion_double sin A w t p = (Double.zero : Flagged) := by
  simp [simple_harmonic_motion_double, hA]

lemma simple_harmonic_motion_double_frequency (sin : Double → Double) (A w t p : Double)
    (hA : A.isZero = false) (hw : w.isZero = true) :
    simple_harmonic_motion_double sin A w t p = (Double.zero : Flagged) := by
  simp [simple_harmonic_motion_double, hA, hw]

lemma simple_harmonic_motion_double_time (sin : Double → Double) (A w t p : Double)
    (hA : A.isZero = false) (hw : w.isZero = false) (ht : t.isZero = true) :
    simple_harmonic_motion_double sin A w t p =
      (A : Flagged) * Flagged.map sin ((w : Flagged) * t + p) := by
  simp [simple_harmonic_motion_double, hA, hw, ht]

lemma simple_harmonic_motion_double_phase (sin : Double → Double) (A w t p : Double)
    (hA : A.isZero = false) (hw : w.isZero = false) (ht : t.isZero = false)
    (hp : p.isZero = true) :
    simple_harmonic_motion_double sin A w t p =
      (A : Flagged) * Flagged.map sin ((w : Flagged) * t) := by
  simp [simple_harmonic_motion_double, hA, hw, ht, hp]

lemma simple_harmonic_motion_double_all_supplied (sin : Double → Double) (A w t p : Double)
    (hA : A.isZero = false) (hw : w.isZero = false) (ht : t.isZero = false)
    (hp : p.isZero = false) :
    simple_harmonic_motion_double sin A w t p = (Double.zero : Flagged) := by
  simp [simple_harmonic_motion_double, hA, hw, ht, hp]

/-- The amplitude times a sine value of magnitude at most 1 stays within the
amplitude. -/
lemma Double.abs_mul_le (sA s : Bool) (A q : ℚ) (hA : Representable A) (hq0 : 0 ≤ q)
    (hq1 : q ≤ 1) :
    Double.le (Double.abs (Double.mul (Double.fin sA A) (Double.fin s q)).val)
      (Double.abs (Double.fin sA A)) = true := by
  have hle : A * q ≤ A := by
    have := mul_le_mul_of_nonneg_left hq1 hA.1
    rwa [mul_one] at this
  obtain ⟨r, hr, hr0, hrA⟩ := roundMag_le_of_le (A * q) A (mul_nonneg hA.1 hq0) hle hA
  rw [Double.mul_fin sA s A q r hr]
  simp [Double.abs, Double.le, signedMag, hrA]

lemma Double.abs_zero_le (s : Bool) (A : ℚ) (hA : 0 ≤ A) :
    Double.le (Double.abs Double.zero) (Double.abs (Double.fin s A)) = true := by
  simp [Double.abs, Double.le, Double.zero, signedMag, hA]

/-- The phase branch when the product `w * t` overflows and `sin` of an
infinity is NaN. -/
lemma simple_harmonic_motion_double_of_overflow (sin : Double → Double)
    (hsin : sin (Double.inf false) = Double.nan) (A w t : ℚ)
    (hA : A ≠ 0) (hw : w ≠ 0) (ht : t ≠ 0) (h : (2 : ℚ) ^ (1024 : ℤ) ≤ w * t) :
    (simple_harmonic_motion_double sin (Double.fin false A) (Double.fin false w)
      (Double.fin false t) Double.zero).val = Double.nan := by
  rw [simple_harmonic_motion_double_phase sin _ _ _ _
    (Double.isZero_fin_of_ne _ _ hA) (Double.isZero_fin_of_ne _ _ hw)
    (Double.isZero_fin_of_ne _ _ ht) Double.isZero_zero]
  show (Double.mul (Double.fin false A)
    (sin (Double.mul (Double.fin false w) (Double.fin false t)).val)).val = _
  have hmul : Double.mul (Double.fin false w) (Double.fin false t) =
      ⟨Double.inf false, ⟨false, false, true⟩⟩ := by
    simp only [Double.mul]
    rw [Double.rounded_of_none _ _ (roundMag_eq_none _ h)]
    rfl
  rw [hmul, hsin]
  rfl

/-- The first branch of `projectile_motion_double` at zero velocity and zero
acceleration when the square of the time overflows: `0 * inf` is NaN. -/
lemma projectile_motion_double_of_overflow (t : ℚ) (h : (2 : ℚ) ^ (1024 : ℤ) ≤ t ^ 2) :
    (projectile_motion_double Double.zero (Double.fin false t) Double.zero).val =
      Double.nan := by
  rw [projectile_motion_double_velocity _ _ _ Double.isZero_zero]
  have hC : ((Double.half : Flagged) * (Double.zero : Flagged)).val = Double.fin false 0 :=
    @Flagged.val_mul_fin _ _ false false (1 / 2) 0 0 rfl rfl (by
      rw [mul_zero]
      exact roundMag_zero)
  have hD : (Flagged.pow (Double.fin false t : Flagged) 2).val = Double.inf false := by
    show (Double.pow (Double.fin false t) 2).val = _
    simp only [Double.pow]
    rw [Double.rounded_of_none _ _ (roundMag_eq_none _ h)]
    rfl
  show (Double.mul ((Double.half : Flagged) * (Double.zero : Flagged)).val
    (Flagged.pow (Double.fin false t : Flagged) 2).val).val = _
  rw [hC, hD]
  simp [Double.mul, Flagged.pure]

/-! ## Newton's second law in binary64 arithmetic -/

/-- C4 (as stated, refuted): with m = 0.1 (the binary64 value
3602879701896397 / 2^55) and a = 3, the force is the rounded product
0.30000000000000004 and newton_second_law(F, 0, a) returns
7205759403792795 / 2^56 = 0.10000000000000002, which is not m. -/
theorem newton_second_law_double_round_trip_fails :
    Representable (3602879701896397 / 2 ^ 55) ∧ Representable 3 ∧
    (newton_second_law_double
      (newton_second_law_double Double.zero (Double.fin false (3602879701896397 / 2 ^ 55))
        (Double.fin false 3)).val
      Double.zero (Double.fin false 3)).val = Double.fin false (7205759403792795 / 2 ^ 56) ∧
    Double.fin false (7205759403792795 / 2 ^ 56) ≠
      Double.fin false (3602879701896397 / 2 ^ 55) := by
  have h1 : roundMag ((3602879701896397 : ℚ) / 2 ^ 55 * 3) =
      some (5404319552844596 / 2 ^ 54) := by
    have h := roundMag_eq_of_tie ((3602879701896397 : ℚ) / 2 ^ 55 * 3) (-2) 5404319552844595
      (by norm_num) (by norm_num) (by norm_num) (by norm_num) (by norm_num)
    rw [h]
    norm_num
  have h2 : roundMag ((5404319552844596 : ℚ) / 2 ^ 54 / 3) =
      some (7205759403792795 / 2 ^ 56) := by
    have h := roundMag_eq_of_near ((5404319552844596 : ℚ) / 2 ^ 54 / 3) (-4) 7205759403792795
      (by norm_num) (by norm_num) (by norm_num) (by norm_num) (by norm_num) (by norm_num)
    rw [h]
    norm_num
  refine ⟨?_, ?_, ?_, ?_⟩
  · have h := representable_of_scaled 3602879701896397 (-55) (by norm_num) (by norm_num)
      (by norm_num)
    norm_num at h ⊢
    exact h
  · exact_mod_cast representable_natCast 3 (by norm_num)
  · rw [newton_second_law_double_force _ _ _ Double.isZero_zero, mul_val,
      Double.mul_fin _ _ _ _ _ h1,
      newton_second_law_double_mass _ _ _ (Double.isZero_fin_of_ne _ _ (by norm_num))
        Double.isZero_zero,
      div_val, Double.div_fin _ _ _ _ _ (by norm_num) h2]
    rfl
  · intro h
    have := (Double.fin.injEq _ _ _ _).mp h
    norm_num at this

/-- C4 (amended): for finite non-zero binary64 values m and a, the force
F = newton_second_law(0, m, a) is the rounded product m * a; when that
product is exact (the real product is itself a binary64 value), F = m * a,
newton_second_law(F, 0, a) = m and newton_second_law(F, m, 0) = a. -/
theorem newton_second_law_double_single_unknown (sm sa : Bool) (m a : ℚ)
    (hm : Representable m) (ha : Representable a) (hm0 : m ≠ 0) (ha0 : a ≠ 0) :
    (newton_second_law_double Double.zero (Double.fin sm m) (Double.fin sa a)).val =
      (Double.mul (Double.fin sm m) (Double.fin sa a)).val ∧
    (Representable (m * a) →
      (newton_second_law_double Double.zero (Double.fin sm m) (Double.fin sa a)).val =
        Double.fin (xor sm sa) (m * a) ∧
      (newton_second_law_double
        (newton_second_law_double Double.zero (Double.fin sm m) (Double.fin sa a)).val
        Double.zero (Double.fin sa a)).val = Double.fin sm m ∧
      (newton_second_law_double
        (newton_second_law_double Double.zero (Double.fin sm m) (Double.fin sa a)).val
        (Double.fin sm m) Double.zero).val = Double.fin sa a) := by
  have hF : (newton_second_law_double Double.zero (Double.fin sm m) (Double.fin sa a)).val =
      (Double.mul (Double.fin sm m) (Double.fin sa a)).val := by
    rw [newton_second_law_double_force _ _ _ Double.isZero_zero, mul_val]
  refine ⟨hF, fun hex => ?_⟩
  have hne : m * a ≠ 0 := mul_ne_zero hm0 ha0
  have hFz : (Double.fin (xor sm sa) (m * a)).isZero = false :=
    Double.isZero_fin_of_ne _ _ hne
  rw [hF, Double.mul_exact sm sa m a hex]
  refine ⟨rfl, ?_, ?_⟩
  · have hq : m * a / a = m := by field_simp
    rw [newton_second_law_double_mass _ _ _ hFz Double.isZero_zero, div_val,
      Double.div_fin _ _ _ _ m ha0 (by rw [hq]; exact hm.2)]
    cases sm <;> cases sa <;> rfl
  · have hq : m * a / m = a := by field_simp
    rw [newton_second_law_double_acceleration _ _ _ hFz (Double.isZero_fin_of_ne _ _ hm0)
      Double.isZero_zero, div_val, Double.div_fin _ _ _ _ a hm0 (by rw [hq]; exact ha.2)]
    cases sm <;> cases sa <;> rfl

/-- Witness for C4 (amended): m = 2, a = 5, whose product 10 is exact, so
newton_second_law(10, 2, 0) = 5. -/
theorem newton_second_law_double_single_unknown_witness :
    (newton_second_law_double Double.zero (Double.fin false 2) (Double.fin false 5)).val =
        Double.fin false (2 * 5) ∧
    (newton_second_law_double
        (newton_second_law_double Double.zero (Double.fin false 2) (Double.fin false 5)).val
        Double.zero (Double.fin false 5)).val = Double.fin false 2 ∧
    (newton_second_law_double
        (newton_second_law_double Double.zero (Double.fin false 2) (Double.fin false 5)).val
        (Double.fin false 2) Double.zero).val = Double.fin false 5 :=
  (newton_second_law_double_single_unknown false false 2 5
    (by exact_mod_cast representable_natCast 2 (by norm_num))
    (by exact_mod_cast representable_natCast 5 (by norm_num))
    (by norm_num) (by norm_num)).2
    (by
      have h := representable_natCast 10 (by norm_num)
      norm_num at h ⊢
      exact h)

/-! ## Coulomb's law in binary64 arithmetic -/

/-- The force solve, the charge solves and the radicand of the distance
solve of `coulombs_law_double` when the product of the charges, the square
of the distance and their quotient are exact. -/
lemma coulombs_law_double_exact (s₁ s₂ sd : Bool) (q₁ q₂ d : ℚ)
    (h₁ : Representable q₁) (h₂ : Representable q₂)
    (h₁0 : q₁ ≠ 0) (h₂0 : q₂ ≠ 0) (hd0 : d ≠ 0)
    (h12 : Representable (q₁ * q₂)) (hdd : Representable (d ^ 2))
    (hF : Representable (q₁ * q₂ / d ^ 2)) :
    (coulombs_law_double Double.zero (Double.fin s₁ q₁) (Double.fin s₂ q₂)
      (Double.fin sd d)).val = Double.fin (xor s₁ s₂) (q₁ * q₂ / d ^ 2) ∧
    (coulombs_law_double (Double.fin (xor s₁ s₂) (q₁ * q₂ / d ^ 2)) Double.zero
      (Double.fin s₂ q₂) (Double.fin sd d)).val = Double.fin s₁ q₁ ∧
    (coulombs_law_double (Double.fin (xor s₁ s₂) (q₁ * q₂ / d ^ 2)) (Double.fin s₁ q₁)
      Double.zero (Double.fin sd d)).val = Double.fin s₂ q₂ ∧
    (coulombs_law_double (Double.fin (xor s₁ s₂) (q₁ * q₂ / d ^ 2)) (Double.fin s₁ q₁)
      (Double.fin s₂ q₂) Double.zero).val = Double.fin false (sqrtMag (d ^ 2)) := by
  have hd2 : d ^ 2 ≠ 0 := pow_ne_zero 2 hd0
  have hnum0 : q₁ * q₂ ≠ 0 := mul_ne_zero h₁0 h₂0
  have hf0 : q₁ * q₂ / d ^ 2 ≠ 0 := div_ne_zero hnum0 hd2
  have hFz : (Double.fin (xor s₁ s₂) (q₁ * q₂ / d ^ 2)).isZero = false :=
    Double.isZero_fin_of_ne _ _ hf0
  have hnum : ((Double.fin s₁ q₁ : Flagged) * (Double.fin s₂ q₂ : Flagged)).val =
      Double.fin (xor s₁ s₂) (q₁ * q₂) := Flagged.val_mul_fin _ rfl rfl h12.2
  have hpow : (Flagged.pow (Double.fin sd d : Flagged) 2).val = Double.fin false (d ^ 2) :=
    Flagged.val_pow_two_fin _ rfl hdd.2
  have hFd : ((Double.fin (xor s₁ s₂) (q₁ * q₂ / d ^ 2) : Flagged) *
      Flagged.pow (Double.fin sd d : Flagged) 2).val =
      Double.fin (xor (xor s₁ s₂) false) (q₁ * q₂) :=
    Flagged.val_mul_fin _ rfl hpow (by
      have : q₁ * q₂ / d ^ 2 * d ^ 2 = q₁ * q₂ := by field_simp
      rw [this]
      exact h12.2)
  refine ⟨?_, ?_, ?_, ?_⟩
  · rw [coulombs_law_double_force _ _ _ _ Double.isZero_zero,
      Flagged.val_div_fin _ hnum hpow hd2 hF.2]
    cases s₁ <;> cases s₂ <;> rfl
  · rw [coulombs_law_double_charge_one _ _ _ _ hFz Double.isZero_zero,
      Flagged.val_div_fin q₁ hFd rfl h₂0 (by
        have : q₁ * q₂ / q₂ = q₁ := by field_simp
        rw [this]
        exact h₁.2)]
    cases s₁ <;> cases s₂ <;> rfl
  · rw [coulombs_law_double_charge_two _ _ _ _ hFz (Double.isZero_fin_of_ne _ _ h₁0)
      Double.isZero_zero,
      Flagged.val_div_fin q₂ hFd rfl h₁0 (by
        have : q₁ * q₂ / q₁ = q₂ := by field_simp
        rw [this]
        exact h₂.2)]
    cases s₁ <;> cases s₂ <;> rfl
  · rw [coulombs_law_double_distance _ _ _ _ hFz (Double.isZero_fin_of_ne _ _ h₁0)
      (Double.isZero_fin_of_ne _ _ h₂0) Double.isZero_zero]
    apply Flagged.val_sqrt_fin
    rw [Flagged.val_div_fin (d ^ 2) hnum rfl hf0 (by
        have : q₁ * q₂ / (q₁ * q₂ / d ^ 2) = d ^ 2 := by field_simp
        rw [this]
        exact hdd.2)]
    cases s₁ <;> cases s₂ <;> rfl

/-- The four roundings of the calls at `q₁ = q₂ = 1`, `d = ±7`. -/
lemma coulombs_law_double_at_seven (sd : Bool) :
    (coulombs_law_double Double.zero (Double.fin false 1) (Double.fin false 1)
      (Double.fin sd 7)).val = Double.fin false (5882252574524729 / 2 ^ 58) ∧
    (coulombs_law_double (Double.fin false (5882252574524729 / 2 ^ 58)) Double.zero
      (Double.fin false 1) (Double.fin sd 7)).val =
        Double.fin false (9007199254740991 / 2 ^ 53) ∧
    (coulombs_law_double (Double.fin false (5882252574524729 / 2 ^ 58)) (Double.fin false 1)
      (Double.fin false 1) Double.zero).val =
        Double.fin false (7881299347898369 / 2 ^ 50) := by
  have r1 : roundMag ((1 : ℚ) * 1) = some 1 := by
    have h := (representable_natCast 1 (by norm_num)).2
    norm_num at h ⊢
    exact h
  have r49 : roundMag ((7 : ℚ) ^ 2) = some 49 := by
    have h := (representable_natCast 49 (by norm_num)).2
    norm_num at h ⊢
    exact h
  have rF : roundMag ((1 : ℚ) / 49) = some (5882252574524729 / 2 ^ 58) := by
    have h := roundMag_eq_of_near ((1 : ℚ) / 49) (-6) 5882252574524729
      (by norm_num) (by norm_num) (by norm_num) (by norm_num) (by norm_num) (by norm_num)
    rw [h]
    norm_num
  have rq : roundMag ((5882252574524729 : ℚ) / 2 ^ 58 * 49) =
      some (9007199254740991 / 2 ^ 53) := by
    have h := roundMag_eq_of_near ((5882252574524729 : ℚ) / 2 ^ 58 * 49) (-1)
      9007199254740991
      (by norm_num) (by norm_num) (by norm_num) (by norm_num) (by norm_num) (by norm_num)
    rw [h]
    norm_num
  have rq1 : roundMag ((9007199254740991 : ℚ) / 2 ^ 53 / 1) =
      some (9007199254740991 / 2 ^ 53) := by
    have h := (representable_of_scaled 9007199254740991 (-53) (by norm_num) (by norm_num)
      (by norm_num)).2
    norm_num at h ⊢
    exact h
  have rd : roundMag ((1 : ℚ) / (5882252574524729 / 2 ^ 58)) =
      some (6896136929411073 / 2 ^ 47) := by
    have h := roundMag_eq_of_near ((1 : ℚ) / (5882252574524729 / 2 ^ 58)) 5
      6896136929411073
      (by norm_num) (by norm_num) (by norm_num) (by norm_num) (by norm_num) (by norm_num)
    rw [h]
    norm_num
  have rs : sqrtMag ((6896136929411073 : ℚ) / 2 ^ 47) = 7881299347898369 / 2 ^ 50 := by
    have h := sqrtMag_eq ((6896136929411073 : ℚ) / 2 ^ 47) 2 7881299347898369
      (by norm_num) (by norm_num) (by norm_num) (by norm_num) (by norm_num)
    rw [h]
    norm_num
  have hnum : ((Double.fin false 1 : Flagged) * (Double.fin false 1 : Flagged)).val =
      Double.fin false 1 := @Flagged.val_mul_fin _ _ false false _ _ _ rfl rfl r1
  have hpow : (Flagged.pow (Double.fin sd 7 : Flagged) 2).val = Double.fin false 49 :=
    Flagged.val_pow_two_fin _ rfl r49
  have hFz : (Double.fin false (5882252574524729 / 2 ^ 58)).isZero = false :=
    Double.isZero_fin_of_ne _ _ (by norm_num)
  have h1z : (Double.fin false 1).isZero = false := Double.isZero_fin_of_ne _ _ (by norm_num)
  refine ⟨?_, ?_, ?_⟩
  · rw [coulombs_law_double_force _ _ _ _ Double.isZero_zero]
    exact @Flagged.val_div_fin _ _ false false _ _ _ hnum hpow (by norm_num) rF
  · rw [coulombs_law_double_charge_one _ _ _ _ hFz Double.isZero_zero]
    exact @Flagged.val_div_fin _ _ false false _ _ _
      (@Flagged.val_mul_fin _ _ false false _ _ _ rfl hpow rq) rfl (by norm_num) rq1
  · rw [coulombs_law_double_distance _ _ _ _ hFz h1z h1z Double.isZero_zero, ← rs]
    apply Flagged.val_sqrt_fin
    exact @Flagged.val_div_fin _ _ false false _ _ _ hnum rfl (by norm_num) rd

/-- C6 (as stated, refuted): with q₁ = q₂ = 1 and d = 7 the force is the
rounded quotient 1/49, and coulombs_law(F, 0, q₂, d) returns
9007199254740991 / 2^53 = 0.9999999999999999, which is not q₁. -/
theorem coulombs_law_double_charge_solve_fails :
    (coulombs_law_double
      (coulombs_law_double Double.zero (Double.fin false 1) (Double.fin false 1)
        (Double.fin false 7)).val
      Double.zero (Double.fin false 1) (Double.fin false 7)).val =
        Double.fin false (9007199254740991 / 2 ^ 53) ∧
    Double.fin false (9007199254740991 / 2 ^ 53) ≠ Double.fin false 1 := by
  refine ⟨?_, ?_⟩
  · rw [(coulombs_law_double_at_seven false).1]
    exact (coulombs_law_double_at_seven false).2.1
  · intro h
    have := (Double.fin.injEq _ _ _ _).mp h
    norm_num at this

/-- C17 (as stated, refuted): with q₁ = q₂ = 1 and d = -7 the distance solve
returns 7881299347898369 / 2^50 = 7.000000000000001, which is not |d| = 7. -/
theorem coulombs_law_double_distance_solve_fails :
    (coulombs_law_double
      (coulombs_law_double Double.zero (Double.fin false 1) (Double.fin false 1)
        (Double.fin true 7)).val
      (Double.fin false 1) (Double.fin false 1) Double.zero).val =
        Double.fin false (7881299347898369 / 2 ^ 50) ∧
    Double.fin false (7881299347898369 / 2 ^ 50) ≠ Double.abs (Double.fin true 7) := by
  refine ⟨?_, ?_⟩
  · rw [(coulombs_law_double_at_seven true).1]
    exact (coulombs_law_double_at_seven true).2.2
  · intro h
    have := (Double.fin.injEq _ _ _ _).mp h
    norm_num at this

/-- C6 (amended): for finite non-zero binary64 values q₁, q₂, d such that
the product q₁*q₂, the square d^2 and the quotient q₁*q₂/d^2 are exact, the
force F = coulombs_law(0, q₁, q₂, d) is q₁*q₂/d^2, zeroing charge_one next
to F gives back q₁, zeroing charge_two gives back q₂, and when d > 0 zeroing
the distance gives back d.  Also coulombs_law(0, 2, 3, 4) = 0.375 and
coulombs_law(10, 2, 3, 0) is the rounded square root of the rounded 6/10,
872118317739593 / 2^50 = 0.7745966692414834. -/
theorem coulombs_law_double_inverse_solves :
    (∀ (s₁ s₂ sd : Bool) (q₁ q₂ d : ℚ),
      Representable q₁ → Representable q₂ → Representable d →
      q₁ ≠ 0 → q₂ ≠ 0 → d ≠ 0 →
      Representable (q₁ * q₂) → Representable (d ^ 2) → Representable (q₁ * q₂ / d ^ 2) →
      (coulombs_law_double Double.zero (Double.fin s₁ q₁) (Double.fin s₂ q₂)
        (Double.fin sd d)).val = Double.fin (xor s₁ s₂) (q₁ * q₂ / d ^ 2) ∧
      (coulombs_law_double
        (coulombs_law_double Double.zero (Double.fin s₁ q₁) (Double.fin s₂ q₂)
          (Double.fin sd d)).val
        Double.zero (Double.fin s₂ q₂) (Double.fin sd d)).val = Double.fin s₁ q₁ ∧
      (coulombs_law_double
        (coulombs_law_double Double.zero (Double.fin s₁ q₁) (Double.fin s₂ q₂)
          (Double.fin sd d)).val
        (Double.fin s₁ q₁) Double.zero (Double.fin sd d)).val = Double.fin s₂ q₂ ∧
      (sd = false →
        (coulombs_law_double
          (coulombs_law_double Double.zero (Double.fin s₁ q₁) (Double.fin s₂ q₂)
            (Double.fin sd d)).val
          (Double.fin s₁ q₁) (Double.fin s₂ q₂) Double.zero).val = Double.fin sd d)) ∧
    (coulombs_law_double Double.zero (Double.fin false 2) (Double.fin false 3)
      (Double.fin false 4)).val = Double.fin false (3 / 8) ∧
    (coulombs_law_double (Double.fin false 10) (Double.fin false 2) (Double.fin false 3)
      Double.zero).val = Double.fin false (872118317739593 / 2 ^ 50) := by
  refine ⟨?_, ?_, ?_⟩
  · intro s₁ s₂ sd q₁ q₂ d h₁ h₂ hd h₁0 h₂0 hd0 h12 hdd hF
    obtain ⟨e1, e2, e3, e4⟩ :=
      coulombs_law_double_exact s₁ s₂ sd q₁ q₂ d h₁ h₂ h₁0 h₂0 hd0 h12 hdd hF
    rw [e1]
    refine ⟨rfl, e2, e3, fun hs => ?_⟩
    rw [e4, hs, pow_two, sqrtMag_sq d hd]
  · have r6 : roundMag ((2 : ℚ) * 3) = some 6 := by
      have h := (representable_natCast 6 (by norm_num)).2
      norm_num at h ⊢
      exact h
    have r16 : roundMag ((4 : ℚ) ^ 2) = some 16 := by
      have h := (representable_natCast 16 (by norm_num)).2
      norm_num at h ⊢
      exact h
    have rF : roundMag ((6 : ℚ) / 16) = some (3 / 8) := by
      have h := (representable_of_scaled 3 (-3) (by norm_num) (by norm_num)
        (by norm_num)).2
      norm_num at h ⊢
      exact h
    rw [coulombs_law_double_force _ _ _ _ Double.isZero_zero]
    exact @Flagged.val_div_fin _ _ false false _ _ _
      (@Flagged.val_mul_fin _ _ false false _ _ _ rfl rfl r6)
      (Flagged.val_pow_two_fin _ rfl r16) (by norm_num) rF
  · have r6 : roundMag ((2 : ℚ) * 3) = some 6 := by
      have h := (representable_natCast 6 (by norm_num)).2
      norm_num at h ⊢
      exact h
    have rq : roundMag ((6 : ℚ) / 10) = some (5404319552844595 / 2 ^ 53) := by
      have h := roundMag_eq_of_near ((6 : ℚ) / 10) (-1) 5404319552844595
        (by norm_num) (by norm_num) (by norm_num) (by norm_num) (by norm_num) (by norm_num)
      rw [h]
      norm_num
    have rs : sqrtMag ((5404319552844595 : ℚ) / 2 ^ 53) = 872118317739593 / 2 ^ 50 := by
      have h := sqrtMag_eq ((5404319552844595 : ℚ) / 2 ^ 53) (-1) 6976946541916744
        (by norm_num) (by norm_num) (by norm_num) (by norm_num) (by norm_num)
      rw [h]
      norm_num
    rw [coulombs_law_double_distance _ _ _ _ (Double.isZero_fin_of_ne _ _ (by norm_num))
      (Double.isZero_fin_of_ne _ _ (by norm_num)) (Double.isZero_fin_of_ne _ _ (by norm_num))
      Double.isZero_zero, ← rs]
    apply Flagged.val_sqrt_fin
    exact @Flagged.val_div_fin _ _ false false _ _ _
      (@Flagged.val_mul_fin _ _ false false _ _ _ rfl rfl r6) rfl (by norm_num) rq

/-- Witness for C6 (amended): q₁ = 2, q₂ = 3, d = 4, where 6, 16 and 6/16
are exact. -/
theorem coulombs_law_double_inverse_solves_witness :
    (coulombs_law_double Double.zero (Double.fin false 2) (Double.fin false 3)
      (Double.fin false 4)).val = Double.fin false (2 * 3 / 4 ^ 2) ∧
    (coulombs_law_double
      (coulombs_law_double Double.zero (Double.fin false 2) (Double.fin false 3)
        (Double.fin false 4)).val
      Double.zero (Double.fin false 3) (Double.fin false 4)).val = Double.fin false 2 ∧
    (coulombs_law_double
      (coulombs_law_double Double.zero (Double.fin false 2) (Double.fin false 3)
        (Double.fin false 4)).val
      (Double.fin false 2) Double.zero (Double.fin false 4)).val = Double.fin false 3 ∧
    (coulombs_law_double
      (coulombs_law_double Double.zero (Double.fin false 2) (Double.fin false 3)
        (Double.fin false 4)).val
      (Double.fin false 2) (Double.fin false 3) Double.zero).val = Double.fin false 4 :=
  have h := coulombs_law_double_inverse_solves.1 false false false 2 3 4
    (by exact_mod_cast representable_natCast 2 (by norm_num))
    (by exact_mod_cast representable_natCast 3 (by norm_num))
    (by exact_mod_cast representable_natCast 4 (by norm_num))
    (by norm_num) (by norm_num) (by norm_num)
    (by have h := representable_natCast 6 (by norm_num); norm_num at h ⊢; exact h)
    (by have h := representable_natCast 16 (by norm_num); norm_num at h ⊢; exact h)
    (by
      have h := representable_of_scaled 3 (-3) (by norm_num) (by norm_num) (by norm_num)
      norm_num at h ⊢
      exact h)
  ⟨h.1, h.2.1, h.2.2.1, h.2.2.2 rfl⟩

/-- C17 (amended): for finite non-zero binary64 values q₁, q₂, d such that
the product q₁*q₂, the square d^2 and the quotient q₁*q₂/d^2 are exact,
solving for the distance from the force coulombs_law(0, q₁, q₂, d) returns
|d|; the result is not negative, and a negative d is not recovered. -/
theorem coulombs_law_double_distance_abs (s₁ s₂ sd : Bool) (q₁ q₂ d : ℚ)
    (h₁ : Representable q₁) (h₂ : Representable q₂) (hd : Representable d)
    (h₁0 : q₁ ≠ 0) (h₂0 : q₂ ≠ 0) (hd0 : d ≠ 0)
    (h12 : Representable (q₁ * q₂)) (hdd : Representable (d ^ 2))
    (hF : Representable (q₁ * q₂ / d ^ 2)) :
    (coulombs_law_double
      (coulombs_law_double Double.zero (Double.fin s₁ q₁) (Double.fin s₂ q₂)
        (Double.fin sd d)).val
      (Double.fin s₁ q₁) (Double.fin s₂ q₂) Double.zero).val = Double.abs (Double.fin sd d) ∧
    Double.le Double.zero
      (coulombs_law_double
        (coulombs_law_double Double.zero (Double.fin s₁ q₁) (Double.fin s₂ q₂)
          (Double.fin sd d)).val
        (Double.fin s₁ q₁) (Double.fin s₂ q₂) Double.zero).val = true ∧
    (sd = true →
      (coulombs_law_double
        (coulombs_law_double Double.zero (Double.fin s₁ q₁) (Double.fin s₂ q₂)
          (Double.fin sd d)).val
        (Double.fin s₁ q₁) (Double.fin s₂ q₂) Double.zero).val ≠ Double.fin sd d) := by
  obtain ⟨e1, -, -, e4⟩ :=
    coulombs_law_double_exact s₁ s₂ sd q₁ q₂ d h₁ h₂ h₁0 h₂0 hd0 h12 hdd hF
  rw [e1, e4, pow_two, sqrtMag_sq d hd]
  refine ⟨rfl, ?_, fun hs h => ?_⟩
  · simp [Double.le, Double.zero, signedMag, hd.1]
  · rw [hs] at h
    have := (Double.fin.injEq _ _ _ _).mp h
    exact absurd this.1 (by decide)

/-- Witness for C17 (amended): q₁ = 2, q₂ = 3, d = -4 gives back 4, not -4. -/
theorem coulombs_law_double_distance_abs_witness :
    (coulombs_law_double
      (coulombs_law_double Double.zero (Double.fin false 2) (Double.fin false 3)
        (Double.fin true 4)).val
      (Double.fin false 2) (Double.fin false 3) Double.zero).val =
        Double.abs (Double.fin true 4) ∧
    (coulombs_law_double
      (coulombs_law_double Double.zero (Double.fin false 2) (Double.fin false 3)
        (Double.fin true 4)).val
      (Double.fin false 2) (Double.fin false 3) Double.zero).val ≠ Double.fin true 4 :=
  have h := coulombs_law_double_distance_abs false false true 2 3 4
    (by exact_mod_cast representable_natCast 2 (by norm_num))
    (by exact_mod_cast representable_natCast 3 (by norm_num))
    (by exact_mod_cast representable_natCast 4 (by norm_num))
    (by norm_num) (by norm_num) (by norm_num)
    (by have h := representable_natCast 6 (by norm_num); norm_num at h ⊢; exact h)
    (by have h := representable_natCast 16 (by norm_num); norm_num at h ⊢; exact h)
    (by
      have h := representable_of_scaled 3 (-3) (by norm_num) (by norm_num) (by norm_num)
      norm_num at h ⊢
      exact h)
  ⟨h.1, h.2.2 rfl⟩

/-! ## Ideal gas law in binary64 arithmetic -/

/-- C7 (amended): for finite non-zero binary64 values V, n, R, T such that
the products n*R, n*R*T, R*T, n*T and the quotient n*R*T/V are exact (each
real result is itself a binary64 value), the pressure
P = ideal_gas_law(0, V, n, R, T) is n*R*T/V and each of the other four
quantities is recovered by zeroing it next to P. -/
theorem ideal_gas_law_double_single_unknown (sV sn sR sT : Bool) (V n R T : ℚ)
    (hV : Representable V) (hn : Representable n) (hR : Representable R)
    (hT : Representable T) (hV0 : V ≠ 0) (hn0 : n ≠ 0) (hR0 : R ≠ 0) (hT0 : T ≠ 0)
    (hnR : Representable (n * R)) (hnRT : Representable (n * R * T))
    (hRT : Representable (R * T)) (hnT : Representable (n * T))
    (hP : Representable (n * R * T / V)) :
    (ideal_gas_law_double Double.zero (Double.fin sV V) (Double.fin sn n) (Double.fin sR R)
      (Double.fin sT T)).val = Double.fin (xor (xor (xor sn sR) sT) sV) (n * R * T / V) ∧
    (ideal_gas_law_double
      (ideal_gas_law_double Double.zero (Double.fin sV V) (Double.fin sn n) (Double.fin sR R)
        (Double.fin sT T)).val
      Double.zero (Double.fin sn n) (Double.fin sR R) (Double.fin sT T)).val =
        Double.fin sV V ∧
    (ideal_gas_law_double
      (ideal_gas_law_double Double.zero (Double.fin sV V) (Double.fin sn n) (Double.fin sR R)
        (Double.fin sT T)).val
      (Double.fin sV V) Double.zero (Double.fin sR R) (Double.fin sT T)).val =
        Double.fin sn n ∧
    (ideal_gas_law_double
      (ideal_gas_law_double Double.zero (Double.fin sV V) (Double.fin sn n) (Double.fin sR R)
        (Double.fin sT T)).val
      (Double.fin sV V) (Double.fin sn n) Double.zero (Double.fin sT T)).val =
        Double.fin sR R ∧
    (ideal_gas_law_double
      (ideal_gas_law_double Double.zero (Double.fin sV V) (Double.fin sn n) (Double.fin sR R)
        (Double.fin sT T)).val
      (Double.fin sV V) (Double.fin sn n) (Double.fin sR R) Double.zero).val =
        Double.fin sT T := by
  have hnum : n * R * T ≠ 0 := mul_ne_zero (mul_ne_zero hn0 hR0) hT0
  have hp0 : n * R * T / V ≠ 0 := div_ne_zero hnum hV0
  -- the numerator `n * R * T`, shared by the pressure and the volume solve
  have h1 : ((Double.fin sn n : Flagged) * (Double.fin sR R : Flagged)).val =
      Double.fin (xor sn sR) (n * R) := Flagged.val_mul_fin _ rfl rfl hnR.2
  have h2 : ((Double.fin sn n : Flagged) * (Double.fin sR R : Flagged) *
      (Double.fin sT T : Flagged)).val = Double.fin (xor (xor sn sR) sT) (n * R * T) :=
    Flagged.val_mul_fin _ h1 rfl hnRT.2
  have hPv : (ideal_gas_law_double Double.zero (Double.fin sV V) (Double.fin sn n)
      (Double.fin sR R) (Double.fin sT T)).val =
      Double.fin (xor (xor (xor sn sR) sT) sV) (n * R * T / V) := by
    rw [ideal_gas_law_double_pressure _ _ _ _ _ Double.isZero_zero]
    exact Flagged.val_div_fin _ h2 rfl hV0 hP.2
  have hPz : (Double.fin (xor (xor (xor sn sR) sT) sV) (n * R * T / V)).isZero = false :=
    Double.isZero_fin_of_ne _ _ hp0
  have hVz := Double.isZero_fin_of_ne sV V hV0
  have hnz := Double.isZero_fin_of_ne sn n hn0
  have hRz := Double.isZero_fin_of_ne sR R hR0
  -- the product `P * V`, shared by the last three solves
  have hPV : ((Double.fin (xor (xor (xor sn sR) sT) sV) (n * R * T / V) : Flagged) *
      (Double.fin sV V : Flagged)).val =
      Double.fin (xor (xor (xor (xor sn sR) sT) sV) sV) (n * R * T) :=
    Flagged.val_mul_fin _ rfl rfl (by
      have : n * R * T / V * V = n * R * T := by field_simp
      rw [this]
      exact hnRT.2)
  rw [hPv]
  refine ⟨rfl, ?_, ?_, ?_, ?_⟩
  · rw [ideal_gas_law_double_volume _ _ _ _ _ hPz Double.isZero_zero,
      Flagged.val_div_fin V h2 rfl hp0 (by
        have : n * R * T / (n * R * T / V) = V := by field_simp
        rw [this]
        exact hV.2)]
    cases sn <;> cases sR <;> cases sT <;> cases sV <;> rfl
  · rw [ideal_gas_law_double_moles _ _ _ _ _ hPz hVz Double.isZero_zero,
      Flagged.val_div_fin n hPV (Flagged.val_mul_fin _ rfl rfl hRT.2)
        (mul_ne_zero hR0 hT0) (by
        have : n * R * T / (R * T) = n := by field_simp; ring
        rw [this]
        exact hn.2)]
    cases sn <;> cases sR <;> cases sT <;> cases sV <;> rfl
  · rw [ideal_gas_law_double_gas_constant _ _ _ _ _ hPz hVz hnz Double.isZero_zero,
      Flagged.val_div_fin R hPV (Flagged.val_mul_fin _ rfl rfl hnT.2)
        (mul_ne_zero hn0 hT0) (by
        have : n * R * T / (n * T) = R := by field_simp; ring
        rw [this]
        exact hR.2)]
    cases sn <;> cases sR <;> cases sT <;> cases sV <;> rfl
  · rw [ideal_gas_law_double_temperature _ _ _ _ _ hPz hVz hnz hRz Double.isZero_zero,
      Flagged.val_div_fin T hPV (Flagged.val_mul_fin _ rfl rfl hnR.2)
        (mul_ne_zero hn0 hR0) (by
        have : n * R * T / (n * R) = T := by field_simp
        rw [this]
        exact hT.2)]
    cases sn <;> cases sR <;> cases sT <;> cases sV <;> rfl

/-- Witness for C7 (amended): V = 2, n = 3, R = 4, T = 5, where every
product and the quotient 30 are exact. -/
theorem ideal_gas_law_double_single_unknown_witness :
    (ideal_gas_law_double Double.zero (Double.fin false 2) (Double.fin false 3)
      (Double.fin false 4) (Double.fin false 5)).val = Double.fin false (3 * 4 * 5 / 2) ∧
    (ideal_gas_law_double
      (ideal_gas_law_double Double.zero (Double.fin false 2) (Double.fin false 3)
        (Double.fin false 4) (Double.fin false 5)).val
      Double.zero (Double.fin false 3) (Double.fin false 4) (Double.fin false 5)).val =
        Double.fin false 2 ∧
    (ideal_gas_law_double
      (ideal_gas_law_double Double.zero (Double.fin false 2) (Double.fin false 3)
        (Double.fin false 4) (Double.fin false 5)).val
      (Double.fin false 2) Double.zero (Double.fin false 4) (Double.fin false 5)).val =
        Double.fin false 3 ∧
    (ideal_gas_law_double
      (ideal_gas_law_double Double.zero (Double.fin false 2) (Double.fin false 3)
        (Double.fin false 4) (Double.fin false 5)).val
      (Double.fin false 2) (Double.fin false 3) Double.zero (Double.fin false 5)).val =
        Double.fin false 4 ∧
    (ideal_gas_law_double
      (ideal_gas_law_double Double.zero (Double.fin false 2) (Double.fin false 3)
        (Double.fin false 4) (Double.fin false 5)).val
      (Double.fin false 2) (Double.fin false 3) (Double.fin false 4) Double.zero).val =
        Double.fin false 5 :=
  ideal_gas_law_double_single_unknown false false false false 2 3 4 5
    (by exact_mod_cast representable_natCast 2 (by norm_num))
    (by exact_mod_cast representable_natCast 3 (by norm_num))
    (by exact_mod_cast representable_natCast 4 (by norm_num))
    (by exact_mod_cast representable_natCast 5 (by norm_num))
    (by norm_num) (by norm_num) (by norm_num) (by norm_num)
    (by have h := representable_natCast 12 (by norm_num); norm_num at h ⊢; exact h)
    (by have h := representable_natCast 60 (by norm_num); norm_num at h ⊢; exact h)
    (by have h := representable_natCast 20 (by norm_num); norm_num at h ⊢; exact h)
    (by have h := representable_natCast 15 (by norm_num); norm_num at h ⊢; exact h)
    (by have h := representable_natCast 30 (by norm_num); norm_num at h ⊢; exact h)

/-- C7 (as stated, refuted): with V = 7, n = 1, R = T = 3 the pressure is
the rounded quotient 9/7 and the volume solve ideal_gas_law(P, 0, n, R, T)
returns 7881299347898367 / 2^50 = 6.999999999999999, which is not V. -/
theorem ideal_gas_law_double_round_trip_fails :
    (ideal_gas_law_double
      (ideal_gas_law_double Double.zero (Double.fin false 7) (Double.fin false 1)
        (Double.fin false 3) (Double.fin false 3)).val
      Double.zero (Double.fin false 1) (Double.fin false 3) (Double.fin false 3)).val =
        Double.fin false (7881299347898367 / 2 ^ 50) ∧
    Double.fin false (7881299347898367 / 2 ^ 50) ≠ Double.fin false 7 := by
  have r3 : roundMag ((1 : ℚ) * 3) = some 3 := by
    have h := (representable_natCast 3 (by norm_num)).2
    norm_num at h ⊢
    exact h
  have r9 : roundMag ((3 : ℚ) * 3) = some 9 := by
    have h := (representable_natCast 9 (by norm_num)).2
    norm_num at h ⊢
    exact h
  have rP : roundMag ((9 : ℚ) / 7) = some (5790342378047781 / 2 ^ 52) := by
    have h := roundMag_eq_of_near ((9 : ℚ) / 7) 0 5790342378047781
      (by norm_num) (by norm_num) (by norm_num) (by norm_num) (by norm_num) (by norm_num)
    rw [h]
    norm_num
  have rV : roundMag ((9 : ℚ) / (5790342378047781 / 2 ^ 52)) =
      some (7881299347898367 / 2 ^ 50) := by
    have h := roundMag_eq_of_near ((9 : ℚ) / (5790342378047781 / 2 ^ 52)) 2 7881299347898367
      (by norm_num) (by norm_num) (by norm_num) (by norm_num) (by norm_num) (by norm_num)
    rw [h]
    norm_num
  have h1 : ((Double.fin false 1 : Flagged) * (Double.fin false 3 : Flagged)).val =
      Double.fin false 3 := @Flagged.val_mul_fin _ _ false false _ _ _ rfl rfl r3
  have h2 : ((Double.fin false 1 : Flagged) * (Double.fin false 3 : Flagged) *
      (Double.fin false 3 : Flagged)).val = Double.fin false 9 :=
    @Flagged.val_mul_fin _ _ false false _ _ _ h1 rfl r9
  have hP : (ideal_gas_law_double Double.zero (Double.fin false 7) (Double.fin false 1)
      (Double.fin false 3) (Double.fin false 3)).val =
      Double.fin false (5790342378047781 / 2 ^ 52) := by
    rw [ideal_gas_law_double_pressure _ _ _ _ _ Double.isZero_zero]
    exact @Flagged.val_div_fin _ _ false false _ _ _ h2 rfl (by norm_num) rP
  refine ⟨?_, ?_⟩
  · rw [hP, ideal_gas_law_double_volume _ _ _ _ _
      (Double.isZero_fin_of_ne _ _ (by norm_num)) Double.isZero_zero]
    exact @Flagged.val_div_fin _ _ false false _ _ _ h2 rfl (by norm_num) rV
  · intro h
    have := (Double.fin.injEq _ _ _ _).mp h
    norm_num at this

/-! ## Division by zero in binary64 arithmetic -/

/-- C11: ohms_law(5, 0, 0) takes the resistance branch, divides the voltage
by the zero current and returns +infinity; for every voltage that is not
zero, ohms_law(voltage, 0, 0) is voltage / 0, which for a finite voltage is
the infinity of the voltage's sign, with the division-by-zero flag raised. -/
theorem ohms_law_double_zero_current :
    (ohms_law_double (Double.fin false 5) Double.zero Double.zero).val = Double.inf false ∧
    (∀ v : Double, v.isZero = false →
      ohms_law_double v Double.zero Double.zero = (v : Flagged) / (Double.zero : Flagged)) ∧
    (∀ (s : Bool) (q : ℚ), q ≠ 0 →
      (ohms_law_double (Double.fin s q) Double.zero Double.zero).val = Double.inf s ∧
      (ohms_law_double (Double.fin s q) Double.zero Double.zero).flags.divZero = true) := by
  have hgen : ∀ (s : Bool) (q : ℚ), q ≠ 0 →
      (ohms_law_double (Double.fin s q) Double.zero Double.zero).val = Double.inf s ∧
      (ohms_law_double (Double.fin s q) Double.zero Double.zero).flags.divZero = true := by
    intro s q hq
    rw [ohms_law_double_resistance _ _ _ (Double.isZero_fin_of_ne s q hq) Double.isZero_zero]
    have hdiv : Double.div (Double.fin s q) Double.zero =
        ⟨Double.inf s, ⟨true, false, false⟩⟩ := by
      cases s <;> simp [Double.div, Double.zero, hq]
    constructor
    · show (Double.div (Double.fin s q) Double.zero).val = _
      rw [hdiv]
    · show ((false || false) || (Double.div (Double.fin s q) Double.zero).flags.divZero) = true
      rw [hdiv]
      rfl
  exact ⟨(hgen false 5 (by norm_num)).1,
    fun v hv => ohms_law_double_resistance v _ _ hv Double.isZero_zero, hgen⟩

/-- Witness for C11: a negative voltage -3 gives -infinity. -/
theorem ohms_law_double_zero_current_witness :
    (ohms_law_double (Double.fin true 3) Double.zero Double.zero).val = Double.inf true ∧
    (ohms_law_double (Double.fin true 3) Double.zero Double.zero).flags.divZero = true :=
  ohms_law_double_zero_current.2.2 true 3 (by norm_num)

/-! ## Finite results -/

/-- C12 (as stated, refuted): mass_energy_equivalence(5, 1e200), where
1e200 is the binary64 value 5883593420661338 * 2^612, returns +infinity:
pow overflows, and the branch neither divides nor takes a square root. -/
theorem mass_energy_equivalence_double_overflow :
    Representable 5 ∧ Representable (5883593420661338 * 2 ^ 612) ∧
    (mass_energy_equivalence_double (Double.fin false 5)
      (Double.fin false (5883593420661338 * 2 ^ 612))).val = Double.inf false ∧
    (Double.inf false).isFinite = false ∧
    (mass_energy_equivalence_double (Double.fin false 5)
      (Double.fin false (5883593420661338 * 2 ^ 612))).flags.divZero = false ∧
    (mass_energy_equivalence_double (Double.fin false 5)
      (Double.fin false (5883593420661338 * 2 ^ 612))).flags.sqrtNeg = false := by
  have hval := mass_energy_equivalence_double_of_overflow false false 5
    (5883593420661338 * 2 ^ 612) (by norm_num) (by norm_num) (by norm_num)
  refine ⟨?_, ?_, ?_, rfl, ?_, ?_⟩
  · exact_mod_cast representable_natCast 5 (by norm_num)
  · have h := representable_of_scaled 5883593420661338 612 (by norm_num) (by norm_num)
      (by norm_num)
    norm_num at h ⊢
    exact h
  · rw [hval]
  · rw [hval]
  · rw [hval]

/-- C12 (amended): for every evaluator and every input of finite binary64
values, the returned value is finite unless the evaluation of the taken
branch divides by zero, takes the square root of a negative number, or
overflows in one of its operations (for simple_harmonic_motion: given that
sin returns a finite value on a finite argument). -/
theorem finite_unless_flagged :
    (∀ f m a : Double, f.isFinite = true → m.isFinite = true → a.isFinite = true →
      (newton_second_law_double f m a).Safe) ∧
    (∀ v t a : Double, v.isFinite = true → t.isFinite = true → a.isFinite = true →
      (projectile_motion_double v t a).Safe) ∧
    (∀ v r i : Double, v.isFinite = true → r.isFinite = true → i.isFinite = true →
      (ohms_law_double v r i).Safe) ∧
    (∀ m c : Double, m.isFinite = true → c.isFinite = true →
      (mass_energy_equivalence_double m c).Safe) ∧
    (∀ (sin : Double → Double) (A w t p : Double),
      (∀ x : Double, x.isFinite = true → (sin x).isFinite = true) →
      A.isFinite = true → w.isFinite = true → t.isFinite = true → p.isFinite = true →
      (simple_harmonic_motion_double sin A w t p).Safe) ∧
    (∀ F q₁ q₂ d : Double, F.isFinite = true → q₁.isFinite = true → q₂.isFinite = true →
      d.isFinite = true → (coulombs_law_double F q₁ q₂ d).Safe) ∧
    (∀ W K P : Double, W.isFinite = true → K.isFinite = true → P.isFinite = true →
      (work_energy_theorem_double W K P).Safe) ∧
    (∀ P V n R T : Double, P.isFinite = true → V.isFinite = true → n.isFinite = true →
      R.isFinite = true → T.isFinite = true → (ideal_gas_law_double P V n R T).Safe) := by
  refine ⟨?_, ?_, ?_, ?_, ?_, ?_, ?_, ?_⟩
  · intro f m a hf hm ha
    unfold newton_second_law_double
    split_ifs <;>
      apply_rules [Flagged.safe_zero, Flagged.safe_pure, Flagged.safe_mul, Flagged.safe_div]
  · intro v t a hv ht ha
    unfold projectile_motion_double
    split_ifs <;>
      apply_rules [Flagged.safe_zero, Flagged.safe_half, Flagged.safe_pure, Flagged.safe_mul,
        Flagged.safe_add, Flagged.safe_pow]
  · intro v r i hv hr hi
    unfold ohms_law_double
    split_ifs <;>
      apply_rules [Flagged.safe_zero, Flagged.safe_pure, Flagged.safe_mul, Flagged.safe_div]
  · intro m c hm hc
    unfold mass_energy_equivalence_double
    split_ifs <;>
      apply_rules [Flagged.safe_zero, Flagged.safe_pure, Flagged.safe_mul, Flagged.safe_pow]
  · intro sin A w t p hsin hA hw ht hp
    unfold simple_harmonic_motion_double
    split_ifs <;>
      apply_rules [Flagged.safe_zero, Flagged.safe_pure, Flagged.safe_mul, Flagged.safe_add,
        Flagged.safe_map]
  · intro F q₁ q₂ d hF h₁ h₂ hd
    unfold coulombs_law_double
    split_ifs <;>
      apply_rules [Flagged.safe_zero, Flagged.safe_pure, Flagged.safe_mul, Flagged.safe_div,
        Flagged.safe_pow, Flagged.safe_sqrt]
  · intro W K P hW hK hP
    unfold work_energy_theorem_double
    split_ifs <;>
      apply_rules [Flagged.safe_zero, Flagged.safe_pure, Flagged.safe_add, Flagged.safe_sub]
  · intro P V n R T hP hV hn hR hT
    unfold ideal_gas_law_double
    split_ifs <;>
      apply_rules [Flagged.safe_zero, Flagged.safe_pure, Flagged.safe_mul, Flagged.safe_div]

/-- Witness for C12 (amended): newton_second_law(10, 0, 5) raises no flag
and returns the finite value 2, while mass_energy_equivalence(5, 1e200) is
covered through its overflow flag. -/
theorem finite_unless_flagged_witness :
    (newton_second_law_double (Double.fin false 10) Double.zero (Double.fin false 5)).Safe ∧
    (mass_energy_equivalence_double (Double.fin false 5)
      (Double.fin false (5883593420661338 * 2 ^ 612))).Safe :=
  ⟨finite_unless_flagged.1 _ _ _ rfl rfl rfl, finite_unless_flagged.2.2.2.1 _ _ rfl rfl⟩

/-- C14 (as stated, refuted): coulombs_law(0, 1, 1, 2^-600) has exactly one
zero argument, but pow(2^-600, 2) underflows to 0 and the force solve
divides by it. -/
theorem coulombs_law_double_divides_by_zero :
    exactlyOneZero_double [Double.zero, Double.fin false 1, Double.fin false 1,
      Double.fin false (1 / 2 ^ 600)] ∧
    (Double.pow (Double.fin false (1 / 2 ^ 600)) 2).val = Double.fin false 0 ∧
    (coulombs_law_double Double.zero (Double.fin false 1) (Double.fin false 1)
      (Double.fin false (1 / 2 ^ 600))).flags.divZero = true := by
  exact coulombs_law_double_of_underflow false false false 1 1 (1 / 2 ^ 600)
    (by norm_num) (by norm_num) (by norm_num) (by norm_num)

/-- C14 (amended): whenever exactly one argument equals 0, no division on
the branch taken has a zero divisor: for newton_second_law and ohms_law on
all binary64 values; for coulombs_law and ideal_gas_law on finite values
provided the divisor that the branch computes does not underflow, that is
d^2 (force solve), R*T (moles solve), n*T (gas-constant solve) and n*R
(temperature solve) are in magnitude at least 2^-1074, the smallest positive
binary64 magnitude (the quantities F, q₁, q₂, d, P, V, n, R, T below are the
magnitudes, the signs are the Booleans). -/
theorem division_safe_single_unknown_double :
    (∀ f m a : Double, exactlyOneZero_double [f, m, a] →
      (newton_second_law_double f m a).flags.divZero = false) ∧
    (∀ v r i : Double, exactlyOneZero_double [v, r, i] →
      (ohms_law_double v r i).flags.divZero = false) ∧
    (∀ (sF s₁ s₂ sd : Bool) (F q₁ q₂ d : ℚ),
      exactlyOneZero_double
        [Double.fin sF F, Double.fin s₁ q₁, Double.fin s₂ q₂, Double.fin sd d] →
      (F = 0 → (2 : ℚ) ^ (-1074 : ℤ) ≤ d ^ 2) →
      (coulombs_law_double (Double.fin sF F) (Double.fin s₁ q₁) (Double.fin s₂ q₂)
        (Double.fin sd d)).flags.divZero = false) ∧
    (∀ (sP sV sn sR sT : Bool) (P V n R T : ℚ),
      exactlyOneZero_double
        [Double.fin sP P, Double.fin sV V, Double.fin sn n, Double.fin sR R,
          Double.fin sT T] →
      (n = 0 → (2 : ℚ) ^ (-1074 : ℤ) ≤ R * T) →
      (R = 0 → (2 : ℚ) ^ (-1074 : ℤ) ≤ n * T) →
      (T = 0 → (2 : ℚ) ^ (-1074 : ℤ) ≤ n * R) →
      (ideal_gas_law_double (Double.fin sP P) (Double.fin sV V) (Double.fin sn n)
        (Double.fin sR R) (Double.fin sT T)).flags.divZero = false) := by
  refine ⟨?_, ?_, ?_, ?_⟩
  · intro f m a h
    unfold exactlyOneZero_double at h
    simp only [List.countP_cons, List.countP_nil] at h
    cases hf : f.isZero <;> cases hm : m.isZero <;> cases ha : a.isZero <;>
      rw [hf, hm, ha] at h <;> simp at h
    · rw [newton_second_law_double_acceleration _ _ _ hf hm ha]
      exact Flagged.divZero_div _ _ rfl rfl hm
    · rw [newton_second_law_double_mass _ _ _ hf hm]
      exact Flagged.divZero_div _ _ rfl rfl ha
    · rw [newton_second_law_double_force _ _ _ hf]
      exact Flagged.divZero_mul _ _ rfl rfl
  · intro v r i h
    unfold exactlyOneZero_double at h
    simp only [List.countP_cons, List.countP_nil] at h
    cases hv : v.isZero <;> cases hr : r.isZero <;> cases hi : i.isZero <;>
      rw [hv, hr, hi] at h <;> simp at h
    · rw [ohms_law_double_current _ _ _ hv hr hi]
      exact Flagged.divZero_div _ _ rfl rfl hr
    · rw [ohms_law_double_resistance _ _ _ hv hr]
      exact Flagged.divZero_div _ _ rfl rfl hi
    · rw [ohms_law_double_voltage _ _ _ hv]
      exact Flagged.divZero_mul _ _ rfl rfl
  · intro sF s₁ s₂ sd F q₁ q₂ d h hd
    unfold exactlyOneZero_double at h
    simp only [List.countP_cons, List.countP_nil] at h
    cases hF : (Double.fin sF F).isZero <;> cases h₁ : (Double.fin s₁ q₁).isZero <;>
      cases h₂ : (Double.fin s₂ q₂).isZero <;> cases h₃ : (Double.fin sd d).isZero <;>
      rw [hF, h₁, h₂, h₃] at h <;> simp at h
    · rw [coulombs_law_double_distance _ _ _ _ hF h₁ h₂ h₃]
      exact Flagged.divZero_sqrt _
        (Flagged.divZero_div _ _ (Flagged.divZero_mul _ _ rfl rfl) rfl hF)
    · rw [coulombs_law_double_charge_two _ _ _ _ hF h₁ h₂]
      exact Flagged.divZero_div _ _
        (Flagged.divZero_mul _ _ rfl (Flagged.divZero_pow _ _ rfl)) rfl h₁
    · rw [coulombs_law_double_charge_one _ _ _ _ hF h₁]
      exact Flagged.divZero_div _ _
        (Flagged.divZero_mul _ _ rfl (Flagged.divZero_pow _ _ rfl)) rfl h₂
    · rw [coulombs_law_double_force _ _ _ _ hF]
      have hF0 : F = 0 := by simpa [Double.isZero] using hF
      exact Flagged.divZero_div _ _ (Flagged.divZero_mul _ _ rfl rfl)
        (Flagged.divZero_pow _ _ rfl) (Double.rounded_isZero _ _ (hd hF0))
  · intro sP sV sn sR sT P V n R T h hRT hnT hnR
    unfold exactlyOneZero_double at h
    simp only [List.countP_cons, List.countP_nil] at h
    cases hP : (Double.fin sP P).isZero <;> cases hV : (Double.fin sV V).isZero <;>
      cases hn : (Double.fin sn n).isZero <;> cases hR : (Double.fin sR R).isZero <;>
      cases hT : (Double.fin sT T).isZero <;>
      rw [hP, hV, hn, hR, hT] at h <;> simp at h
    · rw [ideal_gas_law_double_temperature _ _ _ _ _ hP hV hn hR hT]
      have hT0 : T = 0 := by simpa [Double.isZero] using hT
      exact Flagged.divZero_div _ _ (Flagged.divZero_mul _ _ rfl rfl)
        (Flagged.divZero_mul _ _ rfl rfl) (Double.rounded_isZero _ _ (hnR hT0))
    · rw [ideal_gas_law_double_gas_constant _ _ _ _ _ hP hV hn hR]
      have hR0 : R = 0 := by simpa [Double.isZero] using hR
      exact Flagged.divZero_div _ _ (Flagged.divZero_mul _ _ rfl rfl)
        (Flagged.divZero_mul _ _ rfl rfl) (Double.rounded_isZero _ _ (hnT hR0))
    · rw [ideal_gas_law_double_moles _ _ _ _ _ hP hV hn]
      have hn0 : n = 0 := by simpa [Double.isZero] using hn
      exact Flagged.divZero_div _ _ (Flagged.divZero_mul _ _ rfl rfl)
        (Flagged.divZero_mul _ _ rfl rfl) (Double.rounded_isZero _ _ (hRT hn0))
    · rw [ideal_gas_law_double_volume _ _ _ _ _ hP hV]
      exact Flagged.divZero_div _ _
        (Flagged.divZero_mul _ _ (Flagged.divZero_mul _ _ rfl rfl) rfl) rfl hP
    · rw [ideal_gas_law_double_pressure _ _ _ _ _ hP]
      exact Flagged.divZero_div _ _
        (Flagged.divZero_mul _ _ (Flagged.divZero_mul _ _ rfl rfl) rfl) rfl hV

/-- Witness for C14 (amended): one input with a single zero per evaluator,
on a branch that divides. -/
theorem division_safe_single_unknown_double_witness :
    (newton_second_law_double (Double.fin false 10) Double.zero
      (Double.fin false 5)).flags.divZero = false ∧
    (ohms_law_double (Double.fin false 12) (Double.fin false 4)
      Double.zero).flags.divZero = false ∧
    (coulombs_law_double Double.zero (Double.fin false 2) (Double.fin false 3)
      (Double.fin false 4)).flags.divZero = false ∧
    (ideal_gas_law_double (Double.fin false 6) (Double.fin false 2) Double.zero
      (Double.fin false 4) (Double.fin false 5)).flags.divZero = false :=
  ⟨division_safe_single_unknown_double.1 _ _ _
      (by simp [exactlyOneZero_double, Double.isZero, Double.zero, List.countP_cons]),
   division_safe_single_unknown_double.2.1 _ _ _
      (by simp [exactlyOneZero_double, Double.isZero, Double.zero, List.countP_cons]),
   division_safe_single_unknown_double.2.2.1 false false false false 0 2 3 4
      (by simp [exactlyOneZero_double, Double.isZero, List.countP_cons])
      (fun _ => by norm_num),
   division_safe_single_unknown_double.2.2.2 false false false false false 6 2 0 4 5
      (by simp [exactlyOneZero_double, Double.isZero, List.countP_cons])
      (fun _ => by norm_num) (fun h => absurd h (by norm_num))
      (fun h => absurd h (by norm_num))⟩

/-! ## Work-energy theorem in binary64 arithmetic -/

/-- C15 (as stated, refuted): with KE = 2^53 and PE = 1 the sum KE + PE is
not 0, the inner call returns the rounded sum 2^53, and the outer call
returns 2^53 - 1, which is not KE. -/
theorem work_energy_theorem_double_round_trip_fails :
    signedMag false 9007199254740992 + signedMag false 1 ≠ 0 ∧
    (work_energy_theorem_double
      (work_energy_theorem_double Double.zero (Double.fin false 9007199254740992)
        (Double.fin false 1)).val
      Double.zero (Double.fin false 1)).val = Double.fin false 9007199254740991 ∧
    Double.fin false 9007199254740991 ≠ Double.fin false 9007199254740992 := by
  have hx : signedMag false 9007199254740992 + signedMag false 1 = 9007199254740993 := by
    norm_num [signedMag]
  have hy : signedMag false 9007199254740992 + signedMag true 1 = 9007199254740991 := by
    norm_num [signedMag]
  have r1 : roundMag |signedMag false 9007199254740992 + signedMag false 1| =
      some 9007199254740992 := by
    rw [hx]
    have h := roundMag_eq_of_tie (9007199254740993 : ℚ) 53 4503599627370496
      (by norm_num) (by norm_num) (by norm_num) (by norm_num) (by norm_num)
    norm_num at h ⊢
    exact h
  have r2 : roundMag |signedMag false 9007199254740992 + signedMag true 1| =
      some 9007199254740991 := by
    rw [hy]
    have h := (representable_natCast 9007199254740991 (by norm_num)).2
    norm_num at h ⊢
    exact h
  refine ⟨by rw [hx]; norm_num, ?_, ?_⟩
  · rw [work_energy_theorem_double_work _ _ _ Double.isZero_zero, add_val,
      Double.add_fin_ne _ _ _ _ _ (by rw [hx]; norm_num) r1, hx]
    rw [work_energy_theorem_double_kinetic _ _ _
      (Double.isZero_fin_of_ne _ _ (by norm_num)) Double.isZero_zero, sub_val]
    show (Double.add _ (Double.fin (!false) 1)).val = _
    have hd : decide ((9007199254740993 : ℚ) < 0) = false := by norm_num
    rw [hd]
    show (Double.add (Double.fin false 9007199254740992) (Double.fin true 1)).val = _
    rw [Double.add_fin_ne _ _ _ _ _ (by rw [hy]; norm_num) r2, hy]
    norm_num
  · intro h
    have := (Double.fin.injEq _ _ _ _).mp h
    norm_num at this

/-- C15 (amended): for finite non-zero binary64 values KE and PE: when
KE + PE = 0 the inner call work_energy_theorem(0, KE, PE) returns 0 and the
outer call work_energy_theorem(that, 0, PE) returns PE, which is not KE;
when KE + PE ≠ 0 and the sum is exact, the outer call returns KE; so the
outer call returns KE only if KE + PE ≠ 0. -/
theorem work_energy_theorem_double_zero_sum (sK sP : Bool) (K P : ℚ)
    (hK : Representable K) (hP : Representable P) (hK0 : K ≠ 0) (hP0 : P ≠ 0) :
    (signedMag sK K + signedMag sP P = 0 →
      (work_energy_theorem_double Double.zero (Double.fin sK K)
        (Double.fin sP P)).val.isZero = true ∧
      (work_energy_theorem_double
        (work_energy_theorem_double Double.zero (Double.fin sK K) (Double.fin sP P)).val
        Double.zero (Double.fin sP P)).val = Double.fin sP P ∧
      Double.fin sP P ≠ Double.fin sK K) ∧
    (signedMag sK K + signedMag sP P ≠ 0 →
      Representable |signedMag sK K + signedMag sP P| →
      (work_energy_theorem_double
        (work_energy_theorem_double Double.zero (Double.fin sK K) (Double.fin sP P)).val
        Double.zero (Double.fin sP P)).val = Double.fin sK K) ∧
    ((work_energy_theorem_double
        (work_energy_theorem_double Double.zero (Double.fin sK K) (Double.fin sP P)).val
        Double.zero (Double.fin sP P)).val = Double.fin sK K →
      signedMag sK K + signedMag sP P ≠ 0) := by
  have hKpos : 0 < K := lt_of_le_of_ne hK.1 (Ne.symm hK0)
  have hin : (work_energy_theorem_double Double.zero (Double.fin sK K)
      (Double.fin sP P)).val = (Double.add (Double.fin sK K) (Double.fin sP P)).val := by
    rw [work_energy_theorem_double_work _ _ _ Double.isZero_zero, add_val]
  have hzero : signedMag sK K + signedMag sP P = 0 →
      (work_energy_theorem_double Double.zero (Double.fin sK K)
        (Double.fin sP P)).val.isZero = true ∧
      (work_energy_theorem_double
        (work_energy_theorem_double Double.zero (Double.fin sK K) (Double.fin sP P)).val
        Double.zero (Double.fin sP P)).val = Double.fin sP P ∧
      Double.fin sP P ≠ Double.fin sK K := by
    intro hx
    have hval : (Double.add (Double.fin sK K) (Double.fin sP P)).val =
        Double.fin (sK && sP) 0 := by
      rw [Double.add_fin_zero sK sP K P hx]
      rfl
    have hz : (Double.fin (sK && sP) 0).isZero = true := by simp [Double.isZero]
    rw [hin, hval]
    refine ⟨hz, ?_, ?_⟩
    · rw [work_energy_theorem_double_work _ _ _ hz, add_val]
      exact Double.zero_add_fin sP P hP hP0
    · intro h
      have h' := (Double.fin.injEq _ _ _ _).mp h
      rw [h'.1, h'.2] at hx
      have : signedMag sK K = 0 := by linarith
      exact signedMag_ne_zero sK K hK0 this
  refine ⟨hzero, ?_, ?_⟩
  · intro hx hex
    have hval : (Double.add (Double.fin sK K) (Double.fin sP P)).val =
        Double.fin (decide (signedMag sK K + signedMag sP P < 0))
          |signedMag sK K + signedMag sP P| := by
      rw [Double.add_fin_ne sK sP K P _ hx hex.2]
    rw [hin, hval, work_energy_theorem_double_kinetic _ _ _
      (Double.isZero_fin_of_ne _ _ (abs_ne_zero.mpr hx)) Double.isZero_zero, sub_val]
    show (Double.add _ (Double.fin (!sP) P)).val = _
    have hsum : signedMag (decide (signedMag sK K + signedMag sP P < 0))
        |signedMag sK K + signedMag sP P| + signedMag (!sP) P = signedMag sK K := by
      rw [signedMag_abs, signedMag_neg]
      ring
    rw [Double.add_fin_ne _ _ _ _ K (by rw [hsum]; exact signedMag_ne_zero sK K hK0)
      (by rw [hsum, abs_signedMag sK K hK.1]; exact hK.2), hsum,
      signedMag_lt_zero sK K hKpos]
  · intro hout hx
    obtain ⟨-, h2, h3⟩ := hzero hx
    rw [h2] at hout
    exact h3 hout

/-- Witness for C15 (amended): KE = 3 and PE = -3 sum to 0, so the inner
call returns 0 and the outer call returns -3 rather than 3; KE = 3 and
PE = 4 have the exact sum 7 and the outer call returns 3. -/
theorem work_energy_theorem_double_zero_sum_witness :
    ((work_energy_theorem_double Double.zero (Double.fin false 3)
        (Double.fin true 3)).val.isZero = true ∧
      (work_energy_theorem_double
        (work_energy_theorem_double Double.zero (Double.fin false 3) (Double.fin true 3)).val
        Double.zero (Double.fin true 3)).val = Double.fin true 3 ∧
      Double.fin true 3 ≠ Double.fin false 3) ∧
    (work_energy_theorem_double
        (work_energy_theorem_double Double.zero (Double.fin false 3) (Double.fin false 4)).val
        Double.zero (Double.fin false 4)).val = Double.fin false 3 :=
  ⟨(work_energy_theorem_double_zero_sum false true 3 3
      (by exact_mod_cast representable_natCast 3 (by norm_num))
      (by exact_mod_cast representable_natCast 3 (by norm_num))
      (by norm_num) (by norm_num)).1 (by norm_num [signedMag]),
   (work_energy_theorem_double_zero_sum false false 3 4
      (by exact_mod_cast representable_natCast 3 (by norm_num))
      (by exact_mod_cast representable_natCast 4 (by norm_num))
      (by norm_num) (by norm_num)).2.1 (by norm_num [signedMag])
      (by
        have h := representable_natCast 7 (by norm_num)
        norm_num [signedMag] at h ⊢
        exact h)⟩

/-! ## Projectile motion against the displacement formula in binary64 -/

/-- C16 (as stated, refuted): at (1, 2, -1) no argument is zero, yet
projectile_motion returns 0 and the displacement formula
v0*t + 0.5*a*t^2 is 0 as well, so the two agree although no argument is
zero; and at (0, 1e200, 0), where 1e200 is the binary64 value
5883593420661338 * 2^612, two arguments are zero but pow overflows and
projectile_motion returns NaN, which equals nothing. -/
theorem projectile_motion_double_agrees_without_zero :
    (Double.fin false 1).isZero = false ∧ (Double.fin false 2).isZero = false ∧
    (Double.fin true 1).isZero = false ∧
    (projectile_motion_double (Double.fin false 1) (Double.fin false 2)
      (Double.fin true 1)).val = Double.zero ∧
    (displacement_formula_double (Double.fin false 1) (Double.fin false 2)
      (Double.fin true 1)).val = Double.zero ∧
    (projectile_motion_double Double.zero (Double.fin false (5883593420661338 * 2 ^ 612))
      Double.zero).val = Double.nan ∧
    Double.eq Double.nan
      (displacement_formula_double Double.zero
        (Double.fin false (5883593420661338 * 2 ^ 612)) Double.zero).val = false := by
  have h1 : (Double.fin false 1).isZero = false := Double.isZero_fin_of_ne _ _ (by norm_num)
  have h2 : (Double.fin false 2).isZero = false := Double.isZero_fin_of_ne _ _ (by norm_num)
  have h3 : (Double.fin true 1).isZero = false := Double.isZero_fin_of_ne _ _ (by norm_num)
  have r2 : roundMag ((1 : ℚ) * 2) = some 2 := by
    have h := (representable_natCast 2 (by norm_num)).2
    norm_num at h ⊢
    exact h
  have rh : roundMag ((1 : ℚ) / 2 * 1) = some (1 / 2) := by
    have h := (representable_of_scaled 1 (-1) (by norm_num) (by norm_num) (by norm_num)).2
    norm_num at h ⊢
    exact h
  have r4 : roundMag ((2 : ℚ) ^ 2) = some 4 := by
    have h := (representable_natCast 4 (by norm_num)).2
    norm_num at h ⊢
    exact h
  have rb : roundMag ((1 : ℚ) / 2 * 4) = some 2 := by
    have h := (representable_natCast 2 (by norm_num)).2
    norm_num at h ⊢
    exact h
  have hA : ((Double.fin false 1 : Flagged) * (Double.fin false 2 : Flagged)).val =
      Double.fin false 2 := @Flagged.val_mul_fin _ _ false false _ _ _ rfl rfl r2
  have hC : ((Double.half : Flagged) * (Double.fin true 1 : Flagged)).val =
      Double.fin true (1 / 2) := @Flagged.val_mul_fin _ _ false true _ _ _ rfl rfl rh
  have hB : ((Double.half : Flagged) * (Double.fin true 1 : Flagged) *
      Flagged.pow (Double.fin false 2 : Flagged) 2).val = Double.fin true 2 :=
    @Flagged.val_mul_fin _ _ true false _ _ _ hC (Flagged.val_pow_two_fin _ rfl r4) rb
  refine ⟨h1, h2, h3, ?_, ?_, ?_, rfl⟩
  · rw [projectile_motion_double_all_supplied _ _ _ h1 h2 h3]
    rfl
  · show (Double.add _ _).val = _
    rw [hA, hB, Double.add_fin_zero false true 2 2 (by norm_num [signedMag])]
    rfl
  · exact projectile_motion_double_of_overflow _ (by norm_num)

/-- C16 (amended): for finite binary64 values v0, t, a: if at least one of
them equals 0 and the displacement formula v0*t + 0.5*a*t^2 evaluates
without overflow, then projectile_motion(v0, t, a) == v0*t + 0.5*a*t^2; and
if all three are non-zero then projectile_motion(v0, t, a) = 0. -/
theorem projectile_motion_double_vs_formula (sv st sa : Bool) (v t a : ℚ)
    (hv : Representable v) (ht : Representable t) (ha : Representable a) :
    (v = 0 ∨ t = 0 ∨ a = 0 →
      (displacement_formula_double (Double.fin sv v) (Double.fin st t)
        (Double.fin sa a)).flags.overflow = false →
      Double.eq
        (projectile_motion_double (Double.fin sv v) (Double.fin st t) (Double.fin sa a)).val
        (displacement_formula_double (Double.fin sv v) (Double.fin st t)
          (Double.fin sa a)).val = true) ∧
    (v ≠ 0 → t ≠ 0 → a ≠ 0 →
      (projectile_motion_double (Double.fin sv v) (Double.fin st t)
        (Double.fin sa a)).val = Double.zero) := by
  refine ⟨fun hz hov => ?_, fun hv0 ht0 ha0 => ?_⟩
  · -- the parts of the formula, none of which overflows
    obtain ⟨hovA, hovB, -⟩ := Flagged.lift₂_overflow Double.add _ _ hov
    obtain ⟨hovC, hovD, -⟩ := Flagged.lift₂_overflow Double.mul _ _ hovB
    obtain ⟨rA, hrA, hA⟩ := @Flagged.fin_mul (Double.fin sv v : Flagged)
      (Double.fin st t : Flagged) sv st v t rfl rfl hovA
    obtain ⟨r1, hr1, hC⟩ := @Flagged.fin_mul (Double.half : Flagged)
      (Double.fin sa a : Flagged) false sa (1 / 2) a rfl rfl hovC
    obtain ⟨r2, hr2, hD⟩ := @Flagged.fin_pow_two (Double.fin st t : Flagged) st t rfl hovD
    obtain ⟨rB, hrB, hB⟩ := Flagged.fin_mul hC hD hovB
    have hr1n : 0 ≤ r1 :=
      roundMag_nonneg _ _ (mul_nonneg (by norm_num) ha.1) hr1
    have hr2n : 0 ≤ r2 := roundMag_nonneg _ _ (sq_nonneg t) hr2
    have hRA : Representable rA :=
      representable_of_roundMag _ _ (mul_nonneg hv.1 ht.1) hrA
    have hRB : Representable rB :=
      representable_of_roundMag _ _ (mul_nonneg hr1n hr2n) hrB
    have hform : (displacement_formula_double (Double.fin sv v) (Double.fin st t)
        (Double.fin sa a)).val =
        (Double.add (Double.fin (xor sv st) rA)
          (Double.fin (xor (xor false sa) false) rB)).val := by
      show (Double.add _ _).val = _
      rw [hA, hB]
    by_cases hv0 : v = 0
    · -- first branch: the formula adds a zero product on the left
      have hrA0 : rA = 0 := by
        rw [hv0, zero_mul] at hrA
        exact roundMag_zero_eq rA hrA
      rw [projectile_motion_double_velocity _ _ _ (by simp [Double.isZero, hv0]), hform, hB,
        hrA0]
      exact Double.eq_zero_add _ _ rB hRB
    · have hvz : (Double.fin sv v).isZero = false := Double.isZero_fin_of_ne _ _ hv0
      by_cases ht0 : t = 0
      · -- second branch: the formula itself
        rw [projectile_motion_double_time _ _ _ hvz (by simp [Double.isZero, ht0])]
        obtain ⟨s', r, hr⟩ := Flagged.fin_add hA hB hov
        have hr' : (displacement_formula_double (Double.fin sv v) (Double.fin st t)
            (Double.fin sa a)).val = Double.fin s' r := hr
        rw [hr']
        exact Double.eq_self_fin s' r
      · -- third branch: the formula adds a zero product on the right
        have ha0 : a = 0 := by
          rcases hz with h | h | h
          · exact absurd h hv0
          · exact absurd h ht0
          · exact h
        have hr10 : r1 = 0 := by
          rw [ha0, mul_zero] at hr1
          exact roundMag_zero_eq r1 hr1
        have hrB0 : rB = 0 := by
          rw [hr10, zero_mul] at hrB
          exact roundMag_zero_eq rB hrB
        rw [projectile_motion_double_acceleration _ _ _ hvz
          (Double.isZero_fin_of_ne _ _ ht0) (by simp [Double.isZero, ha0]), hform, hA, hrB0]
        exact Double.eq_add_zero _ _ rA hRA
  · rw [projectile_motion_double_all_supplied _ _ _ (Double.isZero_fin_of_ne _ _ hv0)
      (Double.isZero_fin_of_ne _ _ ht0) (Double.isZero_fin_of_ne _ _ ha0)]
    rfl

/-- Witness for C16 (amended): at (0, 2, 3) the formula evaluates to 6
without overflow and projectile_motion agrees with it; at (4, 2, 3) no
argument is zero and the result is 0. -/
theorem projectile_motion_double_vs_formula_witness :
    Double.eq
      (projectile_motion_double (Double.fin false 0) (Double.fin false 2)
        (Double.fin false 3)).val
      (displacement_formula_double (Double.fin false 0) (Double.fin false 2)
        (Double.fin false 3)).val = true ∧
    (projectile_motion_double (Double.fin false 4) (Double.fin false 2)
      (Double.fin false 3)).val = Double.zero := by
  have r0 : roundMag ((0 : ℚ) * 2) = some 0 := by
    rw [zero_mul]
    exact roundMag_zero
  have rh : roundMag ((1 : ℚ) / 2 * 3) = some (3 / 2) := by
    have h := (representable_of_scaled 3 (-1) (by norm_num) (by norm_num) (by norm_num)).2
    norm_num at h ⊢
    exact h
  have r4 : roundMag ((2 : ℚ) ^ 2) = some 4 := by
    have h := (representable_natCast 4 (by norm_num)).2
    norm_num at h ⊢
    exact h
  have rb : roundMag ((3 : ℚ) / 2 * 4) = some 6 := by
    have h := (representable_natCast 6 (by norm_num)).2
    norm_num at h ⊢
    exact h
  have hx : signedMag (xor false false) 0 + signedMag (xor (xor false false) false) 6 = 6 := by
    norm_num [signedMag]
  have rs : roundMag |signedMag (xor false false) 0 +
      signedMag (xor (xor false false) false) 6| = some 6 := by
    rw [hx]
    have h := (representable_natCast 6 (by norm_num)).2
    norm_num at h ⊢
    exact h
  have hform : displacement_formula_double (Double.fin false 0) (Double.fin false 2)
      (Double.fin false 3) =
      ⟨Double.fin (decide (signedMag (xor false false) 0 +
        signedMag (xor (xor false false) false) 6 < 0)) 6, Flags.clear⟩ :=
    Flagged.add_eq_fin 6 (Flagged.mul_eq_fin 0 rfl rfl r0)
      (Flagged.mul_eq_fin 6 (Flagged.mul_eq_fin (3 / 2) rfl rfl rh)
        (Flagged.pow_two_eq_fin 4 rfl r4) rb)
      (by rw [hx]; norm_num) rs
  exact ⟨(projectile_motion_double_vs_formula false false false 0 2 3
      ⟨le_refl 0, roundMag_zero⟩
      (by exact_mod_cast representable_natCast 2 (by norm_num))
      (by exact_mod_cast representable_natCast 3 (by norm_num))).1 (Or.inl rfl)
      (by rw [hform]; rfl),
    (projectile_motion_double_vs_formula false false false 4 2 3
      (by exact_mod_cast representable_natCast 4 (by norm_num))
      (by exact_mod_cast representable_natCast 2 (by norm_num))
      (by exact_mod_cast representable_natCast 3 (by norm_num))).2
      (by norm_num) (by norm_num) (by norm_num)⟩

/-! ## Simple harmonic motion in binary64 arithmetic: the amplitude bound -/

/-- C18 (as stated, refuted): at A = 1, w = t = 1e200 (the binary64 value
5883593420661338 * 2^612), phi = 0 the product w*t overflows to +infinity;
whenever sin(+infinity) is NaN, as the C library has it,
simple_harmonic_motion returns NaN, and |NaN| <= |A| is false. -/
theorem simple_harmonic_motion_double_overflow :
    (∀ sin : Double → Double, sin (Double.inf false) = Double.nan →
      (simple_harmonic_motion_double sin (Double.fin false 1)
        (Double.fin false (5883593420661338 * 2 ^ 612))
        (Double.fin false (5883593420661338 * 2 ^ 612)) Double.zero).val = Double.nan) ∧
    Double.le (Double.abs Double.nan) (Double.abs (Double.fin false 1)) = false := by
  exact ⟨fun sin hsin => simple_harmonic_motion_double_of_overflow sin hsin 1
    (5883593420661338 * 2 ^ 612) (5883593420661338 * 2 ^ 612)
    (by norm_num) (by norm_num) (by norm_num) (by norm_num), rfl⟩

/-- C18 (amended): for finite binary64 values A, w, t, phi, when the
argument of sin is computed without overflow and sin returns a value of
magnitude at most 1 on every finite argument, the displacement returned by
simple_harmonic_motion satisfies |result| <= |A|. -/
theorem simple_harmonic_motion_double_abs_le (sin : Double → Double)
    (hsin : ∀ x : Double, x.isFinite = true →
      ∃ (s : Bool) (q : ℚ), sin x = Double.fin s q ∧ 0 ≤ q ∧ q ≤ 1)
    (sA sw st sp : Bool) (A w t p : ℚ) (hA : Representable A)
    (hov : (simple_harmonic_motion_double sin (Double.fin sA A) (Double.fin sw w)
      (Double.fin st t) (Double.fin sp p)).flags.overflow = false) :
    Double.le
      (Double.abs (simple_harmonic_motion_double sin (Double.fin sA A) (Double.fin sw w)
        (Double.fin st t) (Double.fin sp p)).val)
      (Double.abs (Double.fin sA A)) = true := by
  cases hAz : (Double.fin sA A).isZero
  · cases hwz : (Double.fin sw w).isZero
    · cases htz : (Double.fin st t).isZero
      · cases hpz : (Double.fin sp p).isZero
        · rw [simple_harmonic_motion_double_all_supplied sin _ _ _ _ hAz hwz htz hpz]
          exact Double.abs_zero_le sA A hA.1
        · rw [simple_harmonic_motion_double_phase sin _ _ _ _ hAz hwz htz hpz] at hov ⊢
          obtain ⟨-, hov2, -⟩ := Flagged.lift₂_overflow Double.mul _ _ hov
          have hov3 : ((Double.fin sw w : Flagged) * (Double.fin st t : Flagged)).flags.overflow =
              false := hov2
          obtain ⟨r, -, hr⟩ := @Flagged.fin_mul (Double.fin sw w : Flagged)
            (Double.fin st t : Flagged) sw st w t rfl rfl hov3
          have hfin : ((Double.fin sw w : Flagged) *
              (Double.fin st t : Flagged)).val.isFinite = true := by
            rw [hr]
            rfl
          obtain ⟨s, q, hs, hq0, hq1⟩ := hsin _ hfin
          show Double.le (Double.abs (Double.mul (Double.fin sA A)
            (sin ((Double.fin sw w : Flagged) * (Double.fin st t : Flagged)).val)).val) _ = true
          rw [hs]
          exact Double.abs_mul_le sA s A q hA hq0 hq1
      · rw [simple_harmonic_motion_double_time sin _ _ _ _ hAz hwz htz] at hov ⊢
        obtain ⟨-, hov2, -⟩ := Flagged.lift₂_overflow Double.mul _ _ hov
        have hov3 : ((Double.fin sw w : Flagged) * (Double.fin st t : Flagged) +
            (Double.fin sp p : Flagged)).flags.overflow = false := hov2
        obtain ⟨hov4, -, -⟩ := Flagged.lift₂_overflow Double.add _ _ hov3
        obtain ⟨r, -, hr⟩ := @Flagged.fin_mul (Double.fin sw w : Flagged)
          (Double.fin st t : Flagged) sw st w t rfl rfl hov4
        obtain ⟨s', r', hr'⟩ := @Flagged.fin_add _ (Double.fin sp p : Flagged) _ sp _ p
          hr rfl hov3
        have hfin : ((Double.fin sw w : Flagged) * (Double.fin st t : Flagged) +
            (Double.fin sp p : Flagged)).val.isFinite = true := by
          rw [hr']
          rfl
        obtain ⟨s, q, hs, hq0, hq1⟩ := hsin _ hfin
        show Double.le (Double.abs (Double.mul (Double.fin sA A)
          (sin ((Double.fin sw w : Flagged) * (Double.fin st t : Flagged) +
            (Double.fin sp p : Flagged)).val)).val) _ = true
        rw [hs]
        exact Double.abs_mul_le sA s A q hA hq0 hq1
    · rw [simple_harmonic_motion_double_frequency sin _ _ _ _ hAz hwz]
      exact Double.abs_zero_le sA A hA.1
  · rw [simple_harmonic_motion_double_amplitude sin _ _ _ _ hAz]
    exact Double.abs_zero_le sA A hA.1

/-- Witness for C18 (amended): with a sine that returns 1 on every finite
argument, simple_harmonic_motion(3, 2, 5, 0) stays within the amplitude 3. -/
theorem simple_harmonic_motion_double_abs_le_witness :
    Double.le
      (Double.abs (simple_harmonic_motion_double
        (fun x => if x.isFinite = true then Double.fin false 1 else Double.nan)
        (Double.fin false 3) (Double.fin false 2) (Double.fin false 5) Double.zero).val)
      (Double.abs (Double.fin false 3)) = true := by
  have r10 : roundMag ((2 : ℚ) * 5) = some 10 := by
    have h := (representable_natCast 10 (by norm_num)).2
    norm_num at h ⊢
    exact h
  have r3 : roundMag ((3 : ℚ) * 1) = some 3 := by
    have h := (representable_natCast 3 (by norm_num)).2
    norm_num at h ⊢
    exact h
  have hval : simple_harmonic_motion_double
      (fun x => if x.isFinite = true then Double.fin false 1 else Double.nan)
      (Double.fin false 3) (Double.fin false 2) (Double.fin false 5) Double.zero =
      ⟨Double.fin false 3, Flags.clear⟩ := by
    rw [simple_harmonic_motion_double_phase _ _ _ _ _
      (Double.isZero_fin_of_ne _ _ (by norm_num)) (Double.isZero_fin_of_ne _ _ (by norm_num))
      (Double.isZero_fin_of_ne _ _ (by norm_num)) Double.isZero_zero]
    have hwt : (Double.fin false 2 : Flagged) * (Double.fin false 5 : Flagged) =
        ⟨Double.fin (xor false false) 10, Flags.clear⟩ :=
      Flagged.mul_eq_fin 10 rfl rfl r10
    rw [hwt]
    exact @Flagged.mul_eq_fin _ _ false false 3 1 3 rfl rfl r3
  exact simple_harmonic_motion_double_abs_le _
    (fun x hx => ⟨false, 1, by simp [hx], by norm_num, le_refl 1⟩)
    false false false false 3 2 5 0
    (by exact_mod_cast representable_natCast 3 (by norm_num))
    (by rw [show Double.fin false 0 = Double.zero from rfl, hval]; rfl)

end PhysicsEquations
